import Mathlib

/-!
# Blackjack: hand valuation and round resolution

A shallow embedding of `ClassAssignment45_Blackjack.cpp`.

* A `Card` is a record of rank, suit and the face-up flag.
* `Hand::m_Cards` (a `std::vector<Card*>`) is a list of cards in vector order; the
  back of the vector is the last element of the list.  Cards are owned by exactly one
  vector, so pointers are modelled by the card values themselves.
* `int` values are modelled by unbounded integers: a total is at most ten times the
  number of cards held.
* Text sent to `std::cout` by the announcement functions is modelled by a list of
  `Event` values returned next to the new state.
* Characters read from `std::cin` are modelled by the list of non-blank characters still
  to be read, passed in and returned.
* The loop of `Deck::AdditionalCards` may run forever, so it takes a fuel argument and
  returns an `Option`; its result does not depend on the fuel once the fuel suffices
  (`AdditionalCards_mono_le`).
-/

set_option linter.dupNamespace false

namespace Blackjack

/-! ## Card -/

/-- The enumeration `Card::rank`, `ACE = 1` up to `KING`. -/
inductive Rank where
  | ACE | TWO | THREE | FOUR | FIVE | SIX | SEVEN | EIGHT | NINE | TEN | JACK | QUEEN | KING
  deriving DecidableEq, Repr

/-- The enumeration `Card::suit`. -/
inductive Suit where
  | CLUBS | DIAMONDS | HEARTS | SPADES
  deriving DecidableEq, Repr

/-- Integer value of a `Card::rank` enumerator (`ACE = 1`, then consecutive). -/
def Rank.toInt : Rank → Int
  | .ACE => 1
  | .TWO => 2
  | .THREE => 3
  | .FOUR => 4
  | .FIVE => 5
  | .SIX => 6
  | .SEVEN => 7
  | .EIGHT => 8
  | .NINE => 9
  | .TEN => 10
  | .JACK => 11
  | .QUEEN => 12
  | .KING => 13

/-- Integer value of a `Card::suit` enumerator (`CLUBS = 0`, then consecutive). -/
def Suit.toInt : Suit → Int
  | .CLUBS => 0
  | .DIAMONDS => 1
  | .HEARTS => 2
  | .SPADES => 3

/-- The class `Card`: its three private members. -/
structure Card where
  m_Rank : Rank
  m_Suit : Suit
  m_IsFaceUp : Bool
  deriving DecidableEq, Repr

/-- `Card::GetValue`: 0 when face down, else the rank capped at 10. -/
def Card.GetValue (c : Card) : Int :=
  if c.m_IsFaceUp then
    if c.m_Rank.toInt > 10 then 10 else c.m_Rank.toInt
  else 0

/-- `Card::Flip`: negates the face-up flag. -/
def Card.Flip (c : Card) : Card :=
  { c with m_IsFaceUp := !c.m_IsFaceUp }

/-! ## Hand -/

/-- The member `Hand::m_Cards`, in vector order. -/
abbrev Hand := List Card

/-- `Hand::Add`: `push_back` on the card vector. -/
def Hand.Add (h : Hand) (pCard : Card) : Hand := h ++ [pCard]

/-- `Hand::Clear`: every card is deleted and the vector is cleared. -/
def Hand.Clear (_h : Hand) : Hand := []

/-- First loop of `Hand::GetTotal`: adds up the card values. -/
def Hand.sumLoop (h : Hand) : Int :=
  h.foldl (fun total c => total + c.GetValue) 0

/-- Second loop of `Hand::GetTotal`: sets `containsAce` at every card of value `ACE`. -/
def Hand.aceLoop (h : Hand) : Bool :=
  h.foldl (fun containsAce c => if c.GetValue = Rank.ACE.toInt then true else containsAce) false

/-- `Hand::GetTotal`. -/
def Hand.GetTotal (h : Hand) : Int :=
  match h with
  | [] => 0
  | first :: _ =>
    if first.GetValue = 0 then 0
    else
      let total := h.sumLoop
      let containsAce := h.aceLoop
      if containsAce && decide (total ≤ 11) then total + 10 else total

/-! ## Announcements -/

/-- What the announcement functions send to `std::cout`: the out-of-cards message of
`Deck::Deal`, the messages of `GenericPlayer::Bust`, `Player::Win`, `Player::Lose`
and `Player::Push`, each with the name it is printed with, and the message of
`House::FlipFirstCard` on a hand without cards. -/
inductive Event where
  | OutOfCards
  | Bust (name : String)
  | Win (name : String)
  | Lose (name : String)
  | Push (name : String)
  | NoCardToFlip
  deriving DecidableEq, Repr

/-! ## GenericPlayer, Player, House -/

/-- The class `GenericPlayer`: a `Hand` with a name.  `Player` and `House` add no
members. -/
structure GenericPlayer where
  m_Name : String
  m_Cards : Hand
  deriving DecidableEq, Repr

/-- `Hand::GetTotal` on the inherited cards. -/
def GenericPlayer.GetTotal (p : GenericPlayer) : Int := p.m_Cards.GetTotal

/-- `Hand::Clear` on the inherited cards. -/
def GenericPlayer.Clear (p : GenericPlayer) : GenericPlayer :=
  { p with m_Cards := p.m_Cards.Clear }

/-- `Hand::Add` on the inherited cards. -/
def GenericPlayer.Add (p : GenericPlayer) (pCard : Card) : GenericPlayer :=
  { p with m_Cards := p.m_Cards.Add pCard }

/-- `GenericPlayer::IsBusted`. -/
def GenericPlayer.IsBusted (p : GenericPlayer) : Bool := decide (p.GetTotal > 21)

/-- `GenericPlayer::Bust`. -/
def GenericPlayer.Bust (p : GenericPlayer) : List Event := [Event.Bust p.m_Name]

/-- `Player::Win`. -/
def Player.Win (p : GenericPlayer) : List Event := [Event.Win p.m_Name]

/-- `Player::Lose`. -/
def Player.Lose (p : GenericPlayer) : List Event := [Event.Lose p.m_Name]

/-- `Player::Push`. -/
def Player.Push (p : GenericPlayer) : List Event := [Event.Push p.m_Name]

/-- `House::IsHitting`. -/
def House.IsHitting (house : GenericPlayer) : Bool := decide (house.GetTotal ≤ 16)

/-! ## Deck -/

/-- The suits visited by the outer loop of `Deck::Populate`, `CLUBS` to `SPADES`. -/
def Suit.all : List Suit := [.CLUBS, .DIAMONDS, .HEARTS, .SPADES]

/-- The ranks visited by the inner loop of `Deck::Populate`, `ACE` to `KING`. -/
def Rank.all : List Rank :=
  [.ACE, .TWO, .THREE, .FOUR, .FIVE, .SIX, .SEVEN, .EIGHT, .NINE, .TEN, .JACK, .QUEEN, .KING]

/-- `Deck::Populate`: clears the deck, then for every suit and, inside, every rank adds
a new card, face up by the default argument of the `Card` constructor. -/
def Deck.Populate (deck : Hand) : Hand :=
  Suit.all.foldl
    (fun d s => Rank.all.foldl (fun d r => d.Add { m_Rank := r, m_Suit := s, m_IsFaceUp := true }) d)
    deck.Clear

/-- The constructor `Deck::Deck`: reserves room and populates the new, empty deck. -/
def Deck.Deck : Hand := Deck.Populate []

/-- `Deck::Deal`: returns the deck, the destination hand and what was printed. -/
def Deck.Deal (deck : Hand) (aHand : Hand) : Hand × Hand × List Event :=
  match deck.getLast? with
  | some back => (deck.dropLast, aHand.Add back, [])
  | none => (deck, aHand, [Event.OutOfCards])

/-! ## Game -/

/-- The class `Game`. -/
structure Game where
  m_Deck : Hand
  m_House : GenericPlayer
  m_Players : List GenericPlayer
  deriving DecidableEq, Repr

/-- Body of the loop of `Game::Play` that runs when the house is busted. -/
def Game.settleHouseBusted (pPlayer : GenericPlayer) : List Event :=
  if !pPlayer.IsBusted then Player.Win pPlayer else []

/-- Body of the loop of `Game::Play` that compares a player with the house. -/
def Game.settleCompare (house pPlayer : GenericPlayer) : List Event :=
  if !pPlayer.IsBusted then
    if pPlayer.GetTotal > house.GetTotal then Player.Win pPlayer
    else if pPlayer.GetTotal < house.GetTotal then Player.Lose pPlayer
    else Player.Push pPlayer
  else []

/-- The settling part of `Game::Play` (from the test of `m_House.IsBusted()` to the end
of both loops): what each iteration prints, one entry per player in vector order. -/
def Game.SETTLE (g : Game) : List (List Event) :=
  if g.m_House.IsBusted then g.m_Players.map Game.settleHouseBusted
  else g.m_Players.map (Game.settleCompare g.m_House)

/-- The last part of `Game::Play`: clears every player and then the house. -/
def Game.RESET (g : Game) : Game :=
  { g with m_Players := g.m_Players.map GenericPlayer.Clear, m_House := g.m_House.Clear }

/-! ## Turn decisions and the additional-card loop -/

/-- `House::FlipFirstCard`: flips the first card, or reports that there is none. -/
def House.FlipFirstCard (house : GenericPlayer) : GenericPlayer × List Event :=
  match house.m_Cards with
  | [] => (house, [Event.NoCardToFlip])
  | first :: rest => ({ house with m_Cards := first.Flip :: rest }, [])

/-- The two classes that override the pure virtual `GenericPlayer::IsHitting`. -/
inductive Role where
  | Player
  | House
  deriving DecidableEq, Repr

/-- `Player::IsHitting`: `std::cin >> response` takes the next non-blank character of
the input, given here as the list of the non-blank characters still to be read; the
answer is yes for `y` and `Y` only.  With no character left the read does not return:
no result. -/
def Player.IsHitting (input : List Char) : Option (Bool × List Char) :=
  match input with
  | [] => none
  | response :: rest => some (response == 'y' || response == 'Y', rest)

/-- The virtual call `aGenericPlayer.IsHitting()`: the answer and the input left. -/
def GenericPlayer.IsHitting (role : Role) (p : GenericPlayer) (input : List Char) :
    Option (Bool × List Char) :=
  match role with
  | .Player => Player.IsHitting input
  | .House => some (House.IsHitting p, input)

/-- Condition of the loop of `Deck::AdditionalCards`,
`!(aGenericPlayer.IsBusted()) && aGenericPlayer.IsHitting()`: by short-circuit
evaluation `IsHitting` is called only when the player is not busted. -/
def Deck.loopGuard (role : Role) (p : GenericPlayer) (input : List Char) :
    Option (Bool × List Char) :=
  if p.IsBusted then some (false, input) else GenericPlayer.IsHitting role p input

/-- Body of the loop of `Deck::AdditionalCards`: one `Deal`, then the bust announcement
when the player is busted. -/
def Deck.loopBody (deck : Hand) (p : GenericPlayer) : Hand × GenericPlayer × List Event :=
  let dealt := Deck.Deal deck p.m_Cards
  let p1 : GenericPlayer := { p with m_Cards := dealt.2.1 }
  (dealt.1, p1, dealt.2.2 ++ (if p1.IsBusted then p1.Bust else []))

/-- `Deck::AdditionalCards`, with `fuel` bounding the number of evaluations of the loop
condition: the deck, the player, the input left and what was printed, or no result when
the fuel does not suffice or a read does not return. -/
def Deck.AdditionalCards (role : Role) :
    Nat → Hand → GenericPlayer → List Char → Option (Hand × GenericPlayer × List Char × List Event)
  | 0, _, _, _ => none
  | fuel + 1, deck, p, input =>
    match Deck.loopGuard role p input with
    | none => none
    | some (false, input1) => some (deck, p, input1, [])
    | some (true, input1) =>
      let step := Deck.loopBody deck p
      match Deck.AdditionalCards role fuel step.1 step.2.1 input1 with
      | none => none
      | some (d, q, i, e) => some (d, q, i, step.2.2 ++ e)

/-! ## The phases of `Game::Play` -/

/-- Inner loop of the initial deal: one `Deal` to every player, in vector order. -/
def Game.dealPlayers : Hand → List GenericPlayer → Hand × List GenericPlayer × List Event
  | deck, [] => (deck, [], [])
  | deck, p :: ps =>
    let dealt := Deck.Deal deck p.m_Cards
    let others := Game.dealPlayers dealt.1 ps
    (others.1, { p with m_Cards := dealt.2.1 } :: others.2.1, dealt.2.2 ++ others.2.2)

/-- One pass of the outer loop of the initial deal: every player, then the house. -/
def Game.dealRound (g : Game) : Game × List Event :=
  let players := Game.dealPlayers g.m_Deck g.m_Players
  let dealt := Deck.Deal players.1 g.m_House.m_Cards
  ({ m_Deck := dealt.1, m_House := { g.m_House with m_Cards := dealt.2.1 },
     m_Players := players.2.1 },
   players.2.2 ++ dealt.2.2)

/-- The initial deal of `Game::Play`: the outer loop runs for `i = 0` and `i = 1`. -/
def Game.INITIAL_DEAL (g : Game) : Game × List Event :=
  let first := g.dealRound
  let second := first.1.dealRound
  (second.1, first.2 ++ second.2)

/-- The call `m_House.FlipFirstCard()` that hides the first card of the house. -/
def Game.REVEAL_PLAYERS (g : Game) : Game × List Event :=
  let flipped := House.FlipFirstCard g.m_House
  ({ g with m_House := flipped.1 }, flipped.2)

/-- Loop of `Game::Play` that calls `m_Deck.AdditionalCards` for every player. -/
def Game.playerTurns (fuel : Nat) :
    Hand → List GenericPlayer → List Char →
      Option (Hand × List GenericPlayer × List Char × List Event)
  | deck, [], input => some (deck, [], input, [])
  | deck, p :: ps, input =>
    match Deck.AdditionalCards Role.Player fuel deck p input with
    | none => none
    | some (d1, p1, i1, e1) =>
      match Game.playerTurns fuel d1 ps i1 with
      | none => none
      | some (d2, ps2, i2, e2) => some (d2, p1 :: ps2, i2, e1 ++ e2)

/-- The player turns of `Game::Play` on the game. -/
def Game.PLAYER_TURNS (fuel : Nat) (g : Game) (input : List Char) :
    Option (Game × List Char × List Event) :=
  match Game.playerTurns fuel g.m_Deck g.m_Players input with
  | none => none
  | some (d, ps, i, e) => some ({ g with m_Deck := d, m_Players := ps }, i, e)

/-- The call `m_House.FlipFirstCard()` that reveals the first card of the house. -/
def Game.DEALER_REVEAL (g : Game) : Game × List Event :=
  let flipped := House.FlipFirstCard g.m_House
  ({ g with m_House := flipped.1 }, flipped.2)

/-- The call `m_Deck.AdditionalCards(m_House)`. -/
def Game.DEALER_TURN (fuel : Nat) (g : Game) (input : List Char) :
    Option (Game × List Char × List Event) :=
  match Deck.AdditionalCards Role.House fuel g.m_Deck g.m_House input with
  | none => none
  | some (d, house, i, e) => some ({ g with m_Deck := d, m_House := house }, i, e)

/-- `Game::Play`: the game after the round, the input left and the announcements, or no
result when a loop of `Deck::AdditionalCards` gives none with this fuel. -/
def Game.Play (fuel : Nat) (g : Game) (input : List Char) :
    Option (Game × List Char × List Event) :=
  let dealt := g.INITIAL_DEAL
  let hidden := dealt.1.REVEAL_PLAYERS
  match hidden.1.PLAYER_TURNS fuel input with
  | none => none
  | some (g3, input3, e3) =>
    let revealed := g3.DEALER_REVEAL
    match revealed.1.DEALER_TURN fuel input3 with
    | none => none
    | some (g5, input5, e5) =>
      some (g5.RESET, input5,
        dealt.2 ++ hidden.2 ++ e3 ++ revealed.2 ++ e5 ++ g5.SETTLE.flatten)

/-- The constructor `Game::Game`: one player per name, the house, and the populated
deck after `Shuffle`; `shuffle` stands for the effect of `random_shuffle` on the card
vector. -/
def Game.Game (names : List String) (shuffle : Hand → Hand) : Game :=
  { m_Deck := shuffle (Deck.Populate Deck.Deck)
    m_House := ⟨"House", []⟩
    m_Players := names.map (fun name => ⟨name, []⟩) }

/-! ## Dealing into several hands -/

/-- One call `Deal(hands[i])` on a deck and a family of hands; an index outside the
family names no hand and changes nothing. -/
def dealInto (state : Hand × List Hand) (i : Nat) : Hand × List Hand :=
  match state.2[i]? with
  | none => state
  | some aHand =>
    let dealt := Deck.Deal state.1 aHand
    (dealt.1, state.2.set i dealt.2.1)

/-- A sequence of `Deal` calls, each into the hand of the given index. -/
def dealSeq (state : Hand × List Hand) (targets : List Nat) : Hand × List Hand :=
  targets.foldl dealInto state

/-! ## The best blackjack value, as the rules state it -/

/-- Face value of a rank: the ordinal, capped at 10. -/
def Rank.faceValue (r : Rank) : Int := if r.toInt > 10 then 10 else r.toInt

/-- All totals of a hand when every Ace is counted, independently, as 1 or as 11 and
every other card at its face value. -/
def aceCountings : Hand → List Int
  | [] => [0]
  | c :: rest =>
    if c.m_Rank = Rank.ACE then
      (aceCountings rest).map (fun t => 1 + t) ++ (aceCountings rest).map (fun t => 11 + t)
    else (aceCountings rest).map (fun t => c.m_Rank.faceValue + t)

/-- The total of a hand with every card at its face value and every Ace counted as 1. -/
def hardTotal (h : Hand) : Int := (h.map (fun c => c.m_Rank.faceValue)).sum

/-- Whether an announcement is a bust announcement. -/
def Event.isBust : Event → Bool
  | .Bust _ => true
  | _ => false

/-! ## Cards used in examples -/

/-- A face-up card of the given rank and suit. -/
def up (r : Rank) (s : Suit) : Card := { m_Rank := r, m_Suit := s, m_IsFaceUp := true }

/-- A face-down card of the given rank and suit. -/
def down (r : Rank) (s : Suit) : Card := { m_Rank := r, m_Suit := s, m_IsFaceUp := false }

/-- A game at the end of the dealer turn: Ann is busted with 25, Bob holds 20 and the
house holds 19. -/
def settleExample : Game :=
  { m_Deck := [up Rank.TWO Suit.CLUBS]
    m_House := ⟨"House", [up Rank.TEN Suit.CLUBS, up Rank.NINE Suit.CLUBS]⟩
    m_Players :=
      [⟨"Ann", [up Rank.KING Suit.HEARTS, up Rank.QUEEN Suit.HEARTS, up Rank.FIVE Suit.HEARTS]⟩,
       ⟨"Bob", [up Rank.KING Suit.SPADES, up Rank.QUEEN Suit.SPADES]⟩] }

/-- A game at the end of a round: the deck holds three cards, one of them face down. -/
def resetExample : Game :=
  { m_Deck := [up Rank.TWO Suit.CLUBS, down Rank.ACE Suit.SPADES, up Rank.SIX Suit.HEARTS]
    m_House := ⟨"House", [up Rank.TEN Suit.CLUBS, up Rank.NINE Suit.CLUBS]⟩
    m_Players :=
      [⟨"Ann", [up Rank.KING Suit.HEARTS, up Rank.QUEEN Suit.HEARTS, up Rank.FIVE Suit.HEARTS]⟩,
       ⟨"Bob", [up Rank.KING Suit.SPADES, up Rank.QUEEN Suit.SPADES]⟩] }

/-- A player holding 20. -/
def annTwenty : GenericPlayer :=
  ⟨"Ann", [up Rank.KING Suit.HEARTS, up Rank.QUEEN Suit.HEARTS]⟩

/-- A house hand of total 16. -/
def houseSixteen : GenericPlayer :=
  ⟨"House", [up Rank.TEN Suit.CLUBS, up Rank.SIX Suit.CLUBS]⟩

/-- A game before a round: two players, nine cards in the deck. -/
def roundExample : Game :=
  { m_Deck :=
      [up Rank.TWO Suit.CLUBS, up Rank.THREE Suit.CLUBS, up Rank.KING Suit.HEARTS,
       up Rank.NINE Suit.CLUBS, up Rank.FIVE Suit.SPADES, up Rank.ACE Suit.SPADES,
       up Rank.TEN Suit.DIAMONDS, up Rank.SEVEN Suit.CLUBS, up Rank.EIGHT Suit.HEARTS]
    m_House := ⟨"House", []⟩
    m_Players := [⟨"Ann", []⟩, ⟨"Bob", []⟩] }

/-- The game `roundExample` after the initial deal, the hiding of the first house card
and the player turns in which Ann took one card. -/
def turnsExample : Game :=
  { m_Deck := [up Rank.TWO Suit.CLUBS, up Rank.THREE Suit.CLUBS]
    m_House := ⟨"House", [down Rank.TEN Suit.DIAMONDS, up Rank.NINE Suit.CLUBS]⟩
    m_Players :=
      [⟨"Ann", [up Rank.EIGHT Suit.HEARTS, up Rank.ACE Suit.SPADES, up Rank.KING Suit.HEARTS]⟩,
       ⟨"Bob", [up Rank.SEVEN Suit.CLUBS, up Rank.FIVE Suit.SPADES]⟩] }

/-! ## Lemmas on the loops of `Hand::GetTotal` -/

theorem sumLoop_foldl (h : Hand) (a : Int) :
    h.foldl (fun total c => total + c.GetValue) a = a + (h.map Card.GetValue).sum := by
  induction h generalizing a with
  | nil => simp
  | cons c t ih => simp [List.foldl_cons, ih, add_assoc]

theorem sumLoop_eq (h : Hand) : h.sumLoop = (h.map Card.GetValue).sum := by
  simp [Hand.sumLoop, sumLoop_foldl]

theorem aceLoop_foldl (h : Hand) (b : Bool) :
    h.foldl (fun containsAce c => if c.GetValue = Rank.ACE.toInt then true else containsAce) b
      = (b || h.any (fun c => decide (c.GetValue = 1))) := by
  induction h generalizing b with
  | nil => simp
  | cons c t ih =>
    rw [List.foldl_cons, ih, List.any_cons]
    by_cases hc : c.GetValue = 1 <;> simp [hc, Rank.toInt]

theorem aceLoop_eq (h : Hand) : h.aceLoop = h.any (fun c => decide (c.GetValue = 1)) := by
  rw [Hand.aceLoop, aceLoop_foldl, Bool.false_or]

theorem aceLoop_iff (h : Hand) : h.aceLoop = true ↔ ∃ c ∈ h, c.GetValue = 1 := by
  simp [aceLoop_eq]

theorem GetValue_eq_one_iff (c : Card) :
    c.GetValue = 1 ↔ c.m_IsFaceUp = true ∧ c.m_Rank = Rank.ACE := by
  cases c with
  | mk r s f => cases r <;> cases f <;> simp [Card.GetValue, Rank.toInt]

theorem GetValue_eq_zero_iff (c : Card) : c.GetValue = 0 ↔ c.m_IsFaceUp = false := by
  cases c with
  | mk r s f => cases r <;> cases f <;> simp [Card.GetValue, Rank.toInt]

theorem GetTotal_cons (first : Card) (rest : Hand) (hf : first.GetValue ≠ 0) :
    Hand.GetTotal (first :: rest) =
      if Hand.aceLoop (first :: rest) = true ∧ ((first :: rest).map Card.GetValue).sum ≤ 11
      then ((first :: rest).map Card.GetValue).sum + 10
      else ((first :: rest).map Card.GetValue).sum := by
  simp only [Hand.GetTotal, hf, if_false, sumLoop_eq, Bool.and_eq_true, decide_eq_true_eq]

theorem GetValue_face_up (c : Card) (hc : c.m_IsFaceUp = true) : c.GetValue ≠ 0 := by
  intro h0
  rw [GetValue_eq_zero_iff] at h0
  rw [hc] at h0
  exact Bool.noConfusion h0

/-! ## Hand totals -/

/-- C1: for a non-empty hand whose cards are all face up, with `S` the sum of
`Card::GetValue` over the cards (in which an Ace counts 1), `Hand::GetTotal` is `S + 10`
when the hand holds an Ace and `S ≤ 11`, and `S` otherwise; it never reaches `S + 20`;
`[Ace, King]` and `[Ace, Ace, Nine]` both total 21. -/
theorem GetTotal_all_face_up (h : Hand) (hne : h ≠ []) (hup : ∀ c ∈ h, c.m_IsFaceUp = true) :
    (∀ c ∈ h, c.m_Rank = Rank.ACE → c.GetValue = 1)
    ∧ (((∃ c ∈ h, c.m_Rank = Rank.ACE) ∧ (h.map Card.GetValue).sum ≤ 11) →
        Hand.GetTotal h = (h.map Card.GetValue).sum + 10)
    ∧ (¬ ((∃ c ∈ h, c.m_Rank = Rank.ACE) ∧ (h.map Card.GetValue).sum ≤ 11) →
        Hand.GetTotal h = (h.map Card.GetValue).sum)
    ∧ Hand.GetTotal h < (h.map Card.GetValue).sum + 20
    ∧ Hand.GetTotal [up Rank.ACE Suit.SPADES, up Rank.KING Suit.HEARTS] = 21
    ∧ Hand.GetTotal [up Rank.ACE Suit.SPADES, up Rank.ACE Suit.CLUBS, up Rank.NINE Suit.HEARTS]
        = 21 := by
  have hace : Hand.aceLoop h = true ↔ ∃ c ∈ h, c.m_Rank = Rank.ACE := by
    rw [aceLoop_iff]
    constructor
    · rintro ⟨c, hc, h1⟩
      exact ⟨c, hc, ((GetValue_eq_one_iff c).1 h1).2⟩
    · rintro ⟨c, hc, h1⟩
      exact ⟨c, hc, (GetValue_eq_one_iff c).2 ⟨hup c hc, h1⟩⟩
  cases h with
  | nil => exact absurd rfl hne
  | cons first rest =>
    have hf : first.GetValue ≠ 0 := GetValue_face_up first (hup first (List.mem_cons_self _ _))
    rw [GetTotal_cons first rest hf]
    refine ⟨?_, ?_, ?_, ?_, by decide, by decide⟩
    · intro c hc hr
      exact (GetValue_eq_one_iff c).2 ⟨hup c hc, hr⟩
    · intro hyp
      rw [if_pos ⟨hace.2 hyp.1, hyp.2⟩]
    · intro hyp
      rw [if_neg (fun hh => hyp ⟨hace.1 hh.1, hh.2⟩)]
    · split <;> omega

theorem GetTotal_all_face_up_witness :
    ([up Rank.ACE Suit.SPADES, up Rank.FIVE Suit.HEARTS] : Hand) ≠ []
    ∧ (∀ c ∈ ([up Rank.ACE Suit.SPADES, up Rank.FIVE Suit.HEARTS] : Hand), c.m_IsFaceUp = true)
    ∧ Hand.GetTotal [up Rank.ACE Suit.SPADES, up Rank.FIVE Suit.HEARTS] = 6 + 10 :=
  ⟨by decide, by decide,
    (GetTotal_all_face_up [up Rank.ACE Suit.SPADES, up Rank.FIVE Suit.HEARTS]
      (by decide) (by decide)).2.1 ⟨by decide, by decide⟩⟩

/-- C2 fails as stated: in the hand `[Two face up, Ace face down]` the first card is face
up, the sum of the values is 2 and a card of rank Ace is present, yet the total is 2 and
not 12. -/
theorem GetTotal_face_down_ace_not_promoted :
    (up Rank.TWO Suit.CLUBS).m_IsFaceUp = true
    ∧ (([up Rank.TWO Suit.CLUBS, down Rank.ACE Suit.SPADES] : Hand).map Card.GetValue).sum = 2
    ∧ (∃ c ∈ ([up Rank.TWO Suit.CLUBS, down Rank.ACE Suit.SPADES] : Hand), c.m_Rank = Rank.ACE)
    ∧ Hand.GetTotal [up Rank.TWO Suit.CLUBS, down Rank.ACE Suit.SPADES] = 2
    ∧ Hand.GetTotal [up Rank.TWO Suit.CLUBS, down Rank.ACE Suit.SPADES] ≠
        (([up Rank.TWO Suit.CLUBS, down Rank.ACE Suit.SPADES] : Hand).map Card.GetValue).sum + 10 := by
  decide

/-- C2, amended: for a hand whose first card is face up, with `S` the sum of
`Card::GetValue` over all cards, `Hand::GetTotal` is `S + 10` whenever `S ≤ 11` and the
hand holds a face-up Ace; when `S ≤ 11` and every Ace of the hand is face down, the
total is `S`. -/
theorem GetTotal_first_face_up (first : Card) (rest : Hand) (hfirst : first.m_IsFaceUp = true)
    (hS : ((first :: rest).map Card.GetValue).sum ≤ 11) :
    ((∃ c ∈ first :: rest, c.m_Rank = Rank.ACE ∧ c.m_IsFaceUp = true) →
        Hand.GetTotal (first :: rest) = ((first :: rest).map Card.GetValue).sum + 10)
    ∧ ((∀ c ∈ first :: rest, c.m_Rank = Rank.ACE → c.m_IsFaceUp = false) →
        Hand.GetTotal (first :: rest) = ((first :: rest).map Card.GetValue).sum) := by
  have hf : first.GetValue ≠ 0 := GetValue_face_up first hfirst
  rw [GetTotal_cons first rest hf]
  constructor
  · rintro ⟨c, hc, hr, hu⟩
    rw [if_pos ⟨(aceLoop_iff _).2 ⟨c, hc, (GetValue_eq_one_iff c).2 ⟨hu, hr⟩⟩, hS⟩]
  · intro hall
    rw [if_neg]
    rintro ⟨hloop, _⟩
    obtain ⟨c, hc, h1⟩ := (aceLoop_iff _).1 hloop
    have h2 := (GetValue_eq_one_iff c).1 h1
    have h3 := hall c hc h2.2
    rw [h2.1] at h3
    exact Bool.noConfusion h3

theorem GetTotal_first_face_up_witness :
    (up Rank.TWO Suit.CLUBS).m_IsFaceUp = true
    ∧ (([up Rank.TWO Suit.CLUBS, down Rank.KING Suit.CLUBS, up Rank.ACE Suit.SPADES] : Hand).map
        Card.GetValue).sum ≤ 11
    ∧ Hand.GetTotal [up Rank.TWO Suit.CLUBS, down Rank.KING Suit.CLUBS, up Rank.ACE Suit.SPADES]
        = (([up Rank.TWO Suit.CLUBS, down Rank.KING Suit.CLUBS, up Rank.ACE Suit.SPADES] : Hand).map
            Card.GetValue).sum + 10 :=
  ⟨by decide, by decide,
    (GetTotal_first_face_up (up Rank.TWO Suit.CLUBS)
      [down Rank.KING Suit.CLUBS, up Rank.ACE Suit.SPADES] (by decide) (by decide)).1
      ⟨up Rank.ACE Suit.SPADES, by decide, by decide, by decide⟩⟩

/-- C3: `Hand::GetTotal` is 0 for the hand without cards and for every hand whose first
card is face down, whatever the cards after it. -/
theorem GetTotal_unrevealed :
    Hand.GetTotal [] = 0
    ∧ ∀ (first : Card) (rest : Hand), first.m_IsFaceUp = false →
        Hand.GetTotal (first :: rest) = 0 := by
  refine ⟨rfl, ?_⟩
  intro first rest hdown
  have h0 : first.GetValue = 0 := (GetValue_eq_zero_iff first).2 hdown
  simp only [Hand.GetTotal, h0, if_true]

theorem GetTotal_unrevealed_witness :
    (down Rank.KING Suit.HEARTS).m_IsFaceUp = false
    ∧ Hand.GetTotal [down Rank.KING Suit.HEARTS, up Rank.ACE Suit.SPADES, up Rank.NINE Suit.CLUBS]
        = 0 :=
  ⟨by decide,
    GetTotal_unrevealed.2 (down Rank.KING Suit.HEARTS)
      [up Rank.ACE Suit.SPADES, up Rank.NINE Suit.CLUBS] (by decide)⟩

/-! ## Card values -/

/-- C4: `Card::GetValue` is 0 for every face-down card, 1 for a face-up Ace, the ordinal
for face-up Two to Ten and 10 for face-up Jack, Queen and King; the ordinals are 1 to 13
and the value lies between 0 and 10, so it is never 11. -/
theorem GetValue_table (r : Rank) (s : Suit) (f : Bool) :
    (1 ≤ r.toInt ∧ r.toInt ≤ 13)
    ∧ Card.GetValue ⟨r, s, false⟩ = 0
    ∧ Card.GetValue ⟨Rank.ACE, s, true⟩ = 1
    ∧ Card.GetValue ⟨Rank.TWO, s, true⟩ = 2
    ∧ Card.GetValue ⟨Rank.THREE, s, true⟩ = 3
    ∧ Card.GetValue ⟨Rank.FOUR, s, true⟩ = 4
    ∧ Card.GetValue ⟨Rank.FIVE, s, true⟩ = 5
    ∧ Card.GetValue ⟨Rank.SIX, s, true⟩ = 6
    ∧ Card.GetValue ⟨Rank.SEVEN, s, true⟩ = 7
    ∧ Card.GetValue ⟨Rank.EIGHT, s, true⟩ = 8
    ∧ Card.GetValue ⟨Rank.NINE, s, true⟩ = 9
    ∧ Card.GetValue ⟨Rank.TEN, s, true⟩ = 10
    ∧ Card.GetValue ⟨Rank.JACK, s, true⟩ = 10
    ∧ Card.GetValue ⟨Rank.QUEEN, s, true⟩ = 10
    ∧ Card.GetValue ⟨Rank.KING, s, true⟩ = 10
    ∧ Card.GetValue ⟨r, s, true⟩ = (if 2 ≤ r.toInt ∧ r.toInt ≤ 10 then r.toInt
        else if r = Rank.ACE then 1 else 10)
    ∧ (0 ≤ Card.GetValue ⟨r, s, f⟩ ∧ Card.GetValue ⟨r, s, f⟩ ≤ 10)
    ∧ Card.GetValue ⟨r, s, f⟩ ≠ 11 := by
  cases r <;> cases f <;> simp [Card.GetValue, Rank.toInt]

/-! ## The house rule -/

/-- C5: `House::IsHitting` is true exactly when the total of the house hand is at most
16 and false exactly when it is at least 17; two house hands with the same total get the
same decision. -/
theorem IsHitting_iff (house : GenericPlayer) :
    (House.IsHitting house = true ↔ Hand.GetTotal house.m_Cards ≤ 16)
    ∧ (House.IsHitting house = false ↔ Hand.GetTotal house.m_Cards ≥ 17)
    ∧ ∀ other : GenericPlayer, Hand.GetTotal other.m_Cards = Hand.GetTotal house.m_Cards →
        House.IsHitting other = House.IsHitting house := by
  refine ⟨?_, ?_, ?_⟩
  · simp [House.IsHitting, GenericPlayer.GetTotal]
  · simp only [House.IsHitting, GenericPlayer.GetTotal, decide_eq_false_iff_not]
    omega
  · intro other heq
    simp only [House.IsHitting, GenericPlayer.GetTotal, heq]

theorem IsHitting_iff_witness :
    Hand.GetTotal [up Rank.NINE Suit.CLUBS, up Rank.SEVEN Suit.HEARTS]
        = Hand.GetTotal [up Rank.TEN Suit.SPADES, up Rank.SIX Suit.DIAMONDS]
    ∧ House.IsHitting ⟨"House", [up Rank.NINE Suit.CLUBS, up Rank.SEVEN Suit.HEARTS]⟩
        = House.IsHitting ⟨"House", [up Rank.TEN Suit.SPADES, up Rank.SIX Suit.DIAMONDS]⟩ :=
  ⟨by decide,
    (IsHitting_iff ⟨"House", [up Rank.TEN Suit.SPADES, up Rank.SIX Suit.DIAMONDS]⟩).2.2
      ⟨"House", [up Rank.NINE Suit.CLUBS, up Rank.SEVEN Suit.HEARTS]⟩ (by decide)⟩

/-! ## Settling a round -/

theorem settleHouseBusted_spec (p : GenericPlayer) :
    (Hand.GetTotal p.m_Cards > 21 → Game.settleHouseBusted p = [])
    ∧ (Hand.GetTotal p.m_Cards ≤ 21 → Game.settleHouseBusted p = [Event.Win p.m_Name]) := by
  constructor
  · intro hp
    simp [Game.settleHouseBusted, GenericPlayer.IsBusted, GenericPlayer.GetTotal, hp]
  · intro hp
    have hp2 : ¬ (21 < Hand.GetTotal p.m_Cards) := by omega
    simp [Game.settleHouseBusted, GenericPlayer.IsBusted, GenericPlayer.GetTotal, hp2, Player.Win]

theorem settleCompare_spec (house p : GenericPlayer) :
    (Hand.GetTotal p.m_Cards > 21 → Game.settleCompare house p = [])
    ∧ (Hand.GetTotal p.m_Cards ≤ 21 →
        (Hand.GetTotal p.m_Cards > Hand.GetTotal house.m_Cards →
          Game.settleCompare house p = [Event.Win p.m_Name])
        ∧ (Hand.GetTotal p.m_Cards < Hand.GetTotal house.m_Cards →
          Game.settleCompare house p = [Event.Lose p.m_Name])
        ∧ (Hand.GetTotal p.m_Cards = Hand.GetTotal house.m_Cards →
          Game.settleCompare house p = [Event.Push p.m_Name])) := by
  constructor
  · intro hp
    simp [Game.settleCompare, GenericPlayer.IsBusted, GenericPlayer.GetTotal, hp]
  · intro hp
    have hp2 : ¬ (21 < Hand.GetTotal p.m_Cards) := by omega
    refine ⟨?_, ?_, ?_⟩
    · intro hc
      simp [Game.settleCompare, GenericPlayer.IsBusted, GenericPlayer.GetTotal, hp2, hc,
        Player.Win]
    · intro hc
      have hc2 : ¬ (Hand.GetTotal house.m_Cards < Hand.GetTotal p.m_Cards) := by omega
      simp [Game.settleCompare, GenericPlayer.IsBusted, GenericPlayer.GetTotal, hp2, hc, hc2,
        Player.Lose]
    · intro hc
      have hc1 : ¬ (Hand.GetTotal house.m_Cards < Hand.GetTotal p.m_Cards) := by omega
      have hc2 : ¬ (Hand.GetTotal p.m_Cards < Hand.GetTotal house.m_Cards) := by omega
      simp [Game.settleCompare, GenericPlayer.IsBusted, GenericPlayer.GetTotal, hp2, hc1, hc2,
        Player.Push]

/-- C6: settling prints one entry per player; for the player at any position the entry
is empty when the player is busted (total over 21); otherwise it is exactly one
announcement: a win when the house is busted, and when the house is not busted a win if
the player total is greater than the house total, a loss if it is smaller and a push if
the totals are equal. -/
theorem SETTLE_outcomes (g : Game) :
    g.SETTLE.length = g.m_Players.length
    ∧ ∀ (i : Nat) (p : GenericPlayer), g.m_Players[i]? = some p →
        ∃ outs : List Event, g.SETTLE[i]? = some outs
          ∧ (Hand.GetTotal p.m_Cards > 21 → outs = [])
          ∧ (Hand.GetTotal p.m_Cards ≤ 21 →
              outs.length = 1
              ∧ (Hand.GetTotal g.m_House.m_Cards > 21 → outs = [Event.Win p.m_Name])
              ∧ (Hand.GetTotal g.m_House.m_Cards ≤ 21 →
                  (Hand.GetTotal p.m_Cards > Hand.GetTotal g.m_House.m_Cards →
                    outs = [Event.Win p.m_Name])
                  ∧ (Hand.GetTotal p.m_Cards < Hand.GetTotal g.m_House.m_Cards →
                    outs = [Event.Lose p.m_Name])
                  ∧ (Hand.GetTotal p.m_Cards = Hand.GetTotal g.m_House.m_Cards →
                    outs = [Event.Push p.m_Name]))) := by
  by_cases hb : Hand.GetTotal g.m_House.m_Cards > 21
  · have hS : g.SETTLE = g.m_Players.map Game.settleHouseBusted := by
      simp [Game.SETTLE, GenericPlayer.IsBusted, GenericPlayer.GetTotal, hb]
    rw [hS]
    refine ⟨List.length_map _ _, ?_⟩
    intro i p hp
    refine ⟨Game.settleHouseBusted p, by simp [List.getElem?_map, hp], ?_, ?_⟩
    · exact (settleHouseBusted_spec p).1
    · intro hle
      have hw := (settleHouseBusted_spec p).2 hle
      refine ⟨by rw [hw]; rfl, fun _ => hw, ?_⟩
      intro hh
      omega
  · have hS : g.SETTLE = g.m_Players.map (Game.settleCompare g.m_House) := by
      simp [Game.SETTLE, GenericPlayer.IsBusted, GenericPlayer.GetTotal, hb]
    rw [hS]
    refine ⟨List.length_map _ _, ?_⟩
    intro i p hp
    refine ⟨Game.settleCompare g.m_House p, by simp [List.getElem?_map, hp], ?_, ?_⟩
    · exact (settleCompare_spec g.m_House p).1
    · intro hle
      have hw := (settleCompare_spec g.m_House p).2 hle
      refine ⟨?_, fun hh => absurd hh hb, fun _ => hw⟩
      rcases lt_trichotomy (Hand.GetTotal p.m_Cards) (Hand.GetTotal g.m_House.m_Cards) with
        hlt | heq | hgt
      · rw [hw.2.1 hlt]; rfl
      · rw [hw.2.2 heq]; rfl
      · rw [hw.1 hgt]; rfl

theorem SETTLE_outcomes_witness :
    settleExample.m_Players[1]? =
        some ⟨"Bob", [up Rank.KING Suit.SPADES, up Rank.QUEEN Suit.SPADES]⟩
    ∧ ∃ outs : List Event, settleExample.SETTLE[1]? = some outs ∧ outs = [Event.Win "Bob"] := by
  refine ⟨by decide, ?_⟩
  obtain ⟨outs, h1, _, h3⟩ := (SETTLE_outcomes settleExample).2 1
    ⟨"Bob", [up Rank.KING Suit.SPADES, up Rank.QUEEN Suit.SPADES]⟩ (by decide)
  exact ⟨outs, h1, ((h3 (by decide)).2.2 (by decide)).1 (by decide)⟩

/-! ## Dealing -/

/-- C7: dealing from a deck without cards leaves the destination hand as it was (same
cards, same order, same count), leaves the deck without cards, and prints the
out-of-cards message. -/
theorem Deal_empty (aHand : Hand) :
    Deck.Deal [] aHand = ([], aHand, [Event.OutOfCards])
    ∧ (Deck.Deal [] aHand).2.1 = aHand
    ∧ (Deck.Deal [] aHand).2.1.length = aHand.length
    ∧ (Deck.Deal [] aHand).1 = []
    ∧ (Deck.Deal [] aHand).2.2 = [Event.OutOfCards] :=
  ⟨rfl, rfl, rfl, rfl, rfl⟩

/-- C8: dealing from a deck that holds a card removes exactly its last card and appends
that card, unchanged, to the end of the destination hand: the deck becomes the deck
without its last element, the hand becomes the hand followed by that card, and nothing is
printed. -/
theorem Deal_nonempty (deck aHand : Hand) (hne : deck ≠ []) :
    Deck.Deal deck aHand = (deck.dropLast, aHand ++ [deck.getLast hne], [])
    ∧ deck.dropLast ++ [deck.getLast hne] = deck
    ∧ (Deck.Deal deck aHand).1.length + 1 = deck.length
    ∧ (Deck.Deal deck aHand).2.1.length = aHand.length + 1 := by
  have hlast : deck.getLast? = some (deck.getLast hne) := List.getLast?_eq_getLast _ hne
  have hdeal : Deck.Deal deck aHand = (deck.dropLast, aHand ++ [deck.getLast hne], []) := by
    simp only [Deck.Deal, hlast, Hand.Add]
  have hsplit : deck.dropLast ++ [deck.getLast hne] = deck := List.dropLast_append_getLast hne
  refine ⟨hdeal, hsplit, ?_, ?_⟩
  · rw [hdeal]
    have hlen := congrArg List.length hsplit
    simp only [List.length_append, List.length_singleton] at hlen
    exact hlen
  · rw [hdeal]
    simp

theorem Deal_nonempty_witness :
    ([up Rank.TWO Suit.CLUBS, down Rank.ACE Suit.SPADES] : Hand) ≠ []
    ∧ Deck.Deal [up Rank.TWO Suit.CLUBS, down Rank.ACE Suit.SPADES] [up Rank.KING Suit.HEARTS]
        = ([up Rank.TWO Suit.CLUBS], [up Rank.KING Suit.HEARTS, down Rank.ACE Suit.SPADES], []) :=
  ⟨by decide,
    (Deal_nonempty [up Rank.TWO Suit.CLUBS, down Rank.ACE Suit.SPADES]
      [up Rank.KING Suit.HEARTS] (by decide)).1⟩

/-! ## Populating the deck -/

theorem Populate_eq (deck : Hand) : Deck.Populate deck = Deck.Populate [] := rfl

theorem Rank_all_toInt : Rank.all.map Rank.toInt = [1, 2, 3, 4, 5, 6, 7, 8, 9, 10, 11, 12, 13] := by
  decide

theorem Suit_all_toInt : Suit.all.map Suit.toInt = [0, 1, 2, 3] := by
  decide

/-- C9: whatever the deck held before, after `Deck::Populate` it holds exactly 52 cards,
every combination of rank and suit occurs exactly once, and every card is face up;
populating a populated deck again gives the same deck as populating once. -/
theorem Populate_standard (deck : Hand) (r : Rank) (s : Suit) :
    (Deck.Populate deck).length = 52
    ∧ (Deck.Populate deck).countP (fun c => decide (c.m_Rank = r ∧ c.m_Suit = s)) = 1
    ∧ (Deck.Populate deck).count ⟨r, s, true⟩ = 1
    ∧ (Deck.Populate deck).all (fun c => c.m_IsFaceUp) = true
    ∧ (Deck.Populate deck).Nodup
    ∧ Deck.Populate (Deck.Populate deck) = Deck.Populate deck
    ∧ Deck.Populate Deck.Deck = Deck.Deck := by
  rw [Populate_eq deck]
  refine ⟨by decide, ?_, ?_, by decide, by decide, rfl, rfl⟩
  · cases r <;> cases s <;> decide
  · cases r <;> cases s <;> decide

/-! ## Clearing the hands -/

/-- C10: the last step of a round leaves the house and every player with no cards, so
each reports total 0; it keeps the players, in order, with their names, and leaves the
deck as it was: same cards, same order, same count. -/
theorem RESET_clears (g : Game) :
    g.RESET.m_House.m_Cards = []
    ∧ g.RESET.m_House.GetTotal = 0
    ∧ g.RESET.m_Players.length = g.m_Players.length
    ∧ g.RESET.m_Players.map GenericPlayer.m_Name = g.m_Players.map GenericPlayer.m_Name
    ∧ (∀ p ∈ g.RESET.m_Players, p.m_Cards = [] ∧ p.GetTotal = 0)
    ∧ g.RESET.m_Deck = g.m_Deck
    ∧ g.RESET.m_Deck.length = g.m_Deck.length := by
  refine ⟨rfl, rfl, ?_, ?_, ?_, rfl, rfl⟩
  · simp [Game.RESET]
  · simp [Game.RESET, GenericPlayer.Clear, Function.comp_def]
  · intro p hp
    simp only [Game.RESET, List.mem_map] at hp
    obtain ⟨q, _, hq⟩ := hp
    subst hq
    exact ⟨rfl, rfl⟩

theorem RESET_clears_witness :
    (⟨"Bob", []⟩ : GenericPlayer) ∈ resetExample.RESET.m_Players
    ∧ (⟨"Bob", []⟩ : GenericPlayer).m_Cards = []
    ∧ (⟨"Bob", []⟩ : GenericPlayer).GetTotal = 0
    ∧ resetExample.RESET.m_Deck =
        [up Rank.TWO Suit.CLUBS, down Rank.ACE Suit.SPADES, up Rank.SIX Suit.HEARTS] :=
  ⟨by decide,
    ((RESET_clears resetExample).2.2.2.2.1 ⟨"Bob", []⟩ (by decide)).1,
    ((RESET_clears resetExample).2.2.2.2.1 ⟨"Bob", []⟩ (by decide)).2,
    (RESET_clears resetExample).2.2.2.2.2.1⟩

/-! ## Busting -/

/-- C12: `GenericPlayer::IsBusted` is true exactly when `Hand::GetTotal` of the hand is
greater than 21; the face-up hand `[King, Queen]` totals 20 and is not busted, and
`[King, Queen, Five]` totals 25 and is busted. -/
theorem IsBusted_iff (p : GenericPlayer) :
    (p.IsBusted = true ↔ Hand.GetTotal p.m_Cards > 21)
    ∧ (p.IsBusted = false ↔ Hand.GetTotal p.m_Cards ≤ 21)
    ∧ Hand.GetTotal [up Rank.KING Suit.HEARTS, up Rank.QUEEN Suit.HEARTS] = 20
    ∧ GenericPlayer.IsBusted ⟨"Ann", [up Rank.KING Suit.HEARTS, up Rank.QUEEN Suit.HEARTS]⟩
        = false
    ∧ Hand.GetTotal [up Rank.KING Suit.HEARTS, up Rank.QUEEN Suit.HEARTS, up Rank.FIVE Suit.CLUBS]
        = 25
    ∧ GenericPlayer.IsBusted
        ⟨"Ann", [up Rank.KING Suit.HEARTS, up Rank.QUEEN Suit.HEARTS, up Rank.FIVE Suit.CLUBS]⟩
        = true := by
  refine ⟨?_, ?_, by decide, by decide, by decide, by decide⟩
  · simp [GenericPlayer.IsBusted, GenericPlayer.GetTotal]
  · simp [GenericPlayer.IsBusted, GenericPlayer.GetTotal]

/-! ## Flipping a card -/

/-- C13: `Card::Flip` negates the face-up flag and keeps rank and suit; flipping twice
gives the card back; after a flip the value is 0 if the card was face up, and the face
value of its rank, between 1 and 10, if it was face down. -/
theorem Flip_toggles (c : Card) :
    c.Flip.m_IsFaceUp = (!c.m_IsFaceUp)
    ∧ c.Flip.m_Rank = c.m_Rank
    ∧ c.Flip.m_Suit = c.m_Suit
    ∧ c.Flip.Flip = c
    ∧ (c.m_IsFaceUp = true → c.Flip.GetValue = 0)
    ∧ (c.m_IsFaceUp = false →
        c.Flip.GetValue = c.m_Rank.faceValue ∧ 1 ≤ c.Flip.GetValue ∧ c.Flip.GetValue ≤ 10) := by
  cases c with
  | mk r s f =>
    cases f <;> cases r <;> simp [Card.Flip, Card.GetValue, Rank.faceValue, Rank.toInt]

theorem Flip_toggles_witness :
    (down Rank.QUEEN Suit.HEARTS).m_IsFaceUp = false
    ∧ (down Rank.QUEEN Suit.HEARTS).Flip.GetValue = 10
    ∧ (up Rank.QUEEN Suit.HEARTS).m_IsFaceUp = true
    ∧ (up Rank.QUEEN Suit.HEARTS).Flip.GetValue = 0 :=
  ⟨by decide,
    ((Flip_toggles (down Rank.QUEEN Suit.HEARTS)).2.2.2.2.2 (by decide)).1,
    by decide,
    (Flip_toggles (up Rank.QUEEN Suit.HEARTS)).2.2.2.2.1 (by decide)⟩

/-! ## The dealer loop on a deck without cards -/

/-- C19: with a deck without cards and a house hand of total 16 or less, the condition
of the loop of `Deck::AdditionalCards` is true, one pass of the body leaves the deck and
the house hand as they were (printing only the out-of-cards message), and so the loop
gives no result for any amount of fuel; the hand without cards and every hand whose
first card is face down are such hands. -/
theorem AdditionalCards_empty_deck (house : GenericPlayer) (input : List Char)
    (h16 : Hand.GetTotal house.m_Cards ≤ 16) :
    Deck.loopGuard Role.House house input = some (true, input)
    ∧ Deck.loopBody [] house = ([], house, [Event.OutOfCards])
    ∧ (∀ fuel : Nat, Deck.AdditionalCards Role.House fuel [] house input = none)
    ∧ Hand.GetTotal [] ≤ 16
    ∧ (∀ (first : Card) (rest : Hand), first.m_IsFaceUp = false →
        Hand.GetTotal (first :: rest) ≤ 16) := by
  have hnb : house.IsBusted = false := by
    simp only [GenericPlayer.IsBusted, GenericPlayer.GetTotal, decide_eq_false_iff_not]
    omega
  have hguard : Deck.loopGuard Role.House house input = some (true, input) := by
    simp [Deck.loopGuard, hnb, GenericPlayer.IsHitting, House.IsHitting,
      GenericPlayer.GetTotal, h16]
  have hbody : Deck.loopBody [] house = ([], house, [Event.OutOfCards]) := by
    have hsame : ({ house with m_Cards := house.m_Cards } : GenericPlayer) = house := rfl
    simp [Deck.loopBody, Deck.Deal, hsame, hnb]
  refine ⟨hguard, hbody, ?_, by decide, ?_⟩
  · intro fuel
    induction fuel with
    | zero => rfl
    | succ n ih => simp only [Deck.AdditionalCards, hguard, hbody, ih]
  · intro first rest hdown
    have h0 : first.GetValue = 0 := (GetValue_eq_zero_iff first).2 hdown
    simp [Hand.GetTotal, h0]

theorem AdditionalCards_empty_deck_witness :
    Hand.GetTotal [down Rank.KING Suit.HEARTS, up Rank.NINE Suit.CLUBS] ≤ 16
    ∧ Deck.loopGuard Role.House ⟨"House", [down Rank.KING Suit.HEARTS, up Rank.NINE Suit.CLUBS]⟩ []
        = some (true, [])
    ∧ Deck.AdditionalCards Role.House 1000 []
        ⟨"House", [down Rank.KING Suit.HEARTS, up Rank.NINE Suit.CLUBS]⟩ [] = none :=
  ⟨by decide,
    (AdditionalCards_empty_deck ⟨"House", [down Rank.KING Suit.HEARTS, up Rank.NINE Suit.CLUBS]⟩
      [] (by decide)).1,
    (AdditionalCards_empty_deck ⟨"House", [down Rank.KING Suit.HEARTS, up Rank.NINE Suit.CLUBS]⟩
      [] (by decide)).2.2.1 1000⟩

/-! ## Card conservation -/

theorem Deal_count (deck aHand : Hand) (c : Card) :
    (Deck.Deal deck aHand).1.count c + (Deck.Deal deck aHand).2.1.count c
      = deck.count c + aHand.count c := by
  by_cases hne : deck = []
  · subst hne
    rfl
  · have hlast : deck.getLast? = some (deck.getLast hne) := List.getLast?_eq_getLast _ hne
    have hsplit : deck.dropLast ++ [deck.getLast hne] = deck := List.dropLast_append_getLast hne
    have hcount := congrArg (List.count c) hsplit
    simp only [Deck.Deal, hlast, Hand.Add]
    rw [List.count_append] at hcount
    rw [List.count_append]
    omega

theorem flatten_set_count (hands : List Hand) (i : Nat) (old new : Hand) (c : Card)
    (hi : hands[i]? = some old) :
    (hands.set i new).flatten.count c + old.count c = hands.flatten.count c + new.count c := by
  induction hands generalizing i with
  | nil => simp at hi
  | cons h t ih =>
    cases i with
    | zero =>
      simp only [List.getElem?_cons_zero, Option.some.injEq] at hi
      subst hi
      simp only [List.set_cons_zero, List.flatten_cons, List.count_append]
      omega
    | succ j =>
      simp only [List.getElem?_cons_succ] at hi
      have := ih j hi
      simp only [List.set_cons_succ, List.flatten_cons, List.count_append]
      omega

theorem dealInto_count (state : Hand × List Hand) (i : Nat) (c : Card) :
    (dealInto state i).1.count c + (dealInto state i).2.flatten.count c
      = state.1.count c + state.2.flatten.count c := by
  unfold dealInto
  cases hi : state.2[i]? with
  | none => rfl
  | some aHand =>
    have h1 := Deal_count state.1 aHand c
    have h2 := flatten_set_count state.2 i aHand (Deck.Deal state.1 aHand).2.1 c hi
    simp only
    omega

theorem dealSeq_count (targets : List Nat) (state : Hand × List Hand) (c : Card) :
    (dealSeq state targets).1.count c + (dealSeq state targets).2.flatten.count c
      = state.1.count c + state.2.flatten.count c := by
  induction targets generalizing state with
  | nil => rfl
  | cons i rest ih =>
    have h1 : dealSeq state (i :: rest) = dealSeq (dealInto state i) rest := rfl
    rw [h1, ih (dealInto state i), dealInto_count]

theorem flatten_of_all_nil (hands : List Hand) (hempty : ∀ h ∈ hands, h = []) :
    hands.flatten = [] := by
  induction hands with
  | nil => rfl
  | cons h t ih =>
    have h0 : h = [] := hempty h (List.mem_cons_self _ _)
    have ht : t.flatten = [] := ih (fun x hx => hempty x (List.mem_cons_of_mem _ hx))
    simp [h0, ht]

theorem Populate_countP (r : Rank) (s : Suit) :
    (Deck.Populate []).countP (fun c => decide (c.m_Rank = r ∧ c.m_Suit = s)) = 1 := by
  cases r <;> cases s <;> decide

/-- C20: `Deck::Deal` keeps the cards of the deck and the destination hand together,
as a multiset, and so their combined count, whether or not the deck holds a card; hence
from a populated deck, in any order, and hands without cards, after any sequence of
deals into any of the hands every combination of rank and suit occurs exactly once
across the deck and the hands. -/
theorem Deal_conserves (deck aHand : Hand) :
    ((Deck.Deal deck aHand).1 ++ (Deck.Deal deck aHand).2.1).Perm (deck ++ aHand)
    ∧ (Deck.Deal deck aHand).1.length + (Deck.Deal deck aHand).2.1.length
        = deck.length + aHand.length
    ∧ ∀ (hands : List Hand) (targets : List Nat),
        deck.Perm (Deck.Populate []) → (∀ h ∈ hands, h = []) →
        ((dealSeq (deck, hands) targets).1 ++ (dealSeq (deck, hands) targets).2.flatten).Perm
            (Deck.Populate [])
        ∧ ∀ (r : Rank) (s : Suit),
            ((dealSeq (deck, hands) targets).1 ++ (dealSeq (deck, hands) targets).2.flatten).countP
              (fun c => decide (c.m_Rank = r ∧ c.m_Suit = s)) = 1 := by
  have hperm : ((Deck.Deal deck aHand).1 ++ (Deck.Deal deck aHand).2.1).Perm (deck ++ aHand) := by
    rw [List.perm_iff_count]
    intro c
    rw [List.count_append, List.count_append]
    exact Deal_count deck aHand c
  refine ⟨hperm, ?_, ?_⟩
  · have hlen := hperm.length_eq
    simp only [List.length_append] at hlen
    exact hlen
  · intro hands targets hdeck hempty
    have hall : ((dealSeq (deck, hands) targets).1
        ++ (dealSeq (deck, hands) targets).2.flatten).Perm (Deck.Populate []) := by
      rw [List.perm_iff_count]
      intro c
      rw [List.count_append, dealSeq_count targets (deck, hands) c,
        flatten_of_all_nil hands hempty]
      simp only [List.count_nil, Nat.add_zero]
      exact hdeck.count_eq c
    refine ⟨hall, ?_⟩
    intro r s
    rw [hall.countP_eq, Populate_countP]

theorem Deal_conserves_witness :
    (Deck.Populate []).Perm (Deck.Populate [])
    ∧ (∀ h ∈ ([[], [], []] : List Hand), h = [])
    ∧ ((dealSeq (Deck.Populate [], [[], [], []]) [0, 1, 2, 0, 1, 2, 1]).1
        ++ (dealSeq (Deck.Populate [], [[], [], []]) [0, 1, 2, 0, 1, 2, 1]).2.flatten).countP
          (fun c => decide (c.m_Rank = Rank.ACE ∧ c.m_Suit = Suit.SPADES)) = 1 :=
  ⟨List.Perm.refl _, by decide,
    (((Deal_conserves (Deck.Populate []) []).2.2 [[], [], []] [0, 1, 2, 0, 1, 2, 1]
      (List.Perm.refl _) (by decide)).2 Rank.ACE Suit.SPADES)⟩

/-! ## The total is the best blackjack value -/

theorem GetValue_up_eq (c : Card) (hc : c.m_IsFaceUp = true) :
    c.GetValue = c.m_Rank.faceValue := by
  simp [Card.GetValue, Rank.faceValue, hc]

theorem faceValue_pos (r : Rank) : 1 ≤ r.faceValue ∧ r.faceValue ≤ 10 := by
  cases r <;> simp [Rank.faceValue, Rank.toInt]

theorem sum_GetValue_up (h : Hand) (hup : ∀ c ∈ h, c.m_IsFaceUp = true) :
    (h.map Card.GetValue).sum = hardTotal h := by
  induction h with
  | nil => rfl
  | cons c t ih =>
    have hc := GetValue_up_eq c (hup c (List.mem_cons_self _ _))
    have ht := ih (fun x hx => hup x (List.mem_cons_of_mem _ hx))
    simp only [hardTotal, List.map_cons, List.sum_cons] at ht ⊢
    rw [hc, ht]

theorem GetTotal_up (h : Hand) (hup : ∀ c ∈ h, c.m_IsFaceUp = true) :
    (((∃ c ∈ h, c.m_Rank = Rank.ACE) ∧ hardTotal h ≤ 11) → Hand.GetTotal h = hardTotal h + 10)
    ∧ (¬ ((∃ c ∈ h, c.m_Rank = Rank.ACE) ∧ hardTotal h ≤ 11) → Hand.GetTotal h = hardTotal h) := by
  cases h with
  | nil =>
    constructor
    · rintro ⟨⟨c, hc, _⟩, _⟩
      simp at hc
    · intro _
      rfl
  | cons first rest =>
    have hf : first.GetValue ≠ 0 := GetValue_face_up first (hup first (List.mem_cons_self _ _))
    have hace : Hand.aceLoop (first :: rest) = true ↔ ∃ c ∈ first :: rest, c.m_Rank = Rank.ACE := by
      rw [aceLoop_iff]
      constructor
      · rintro ⟨c, hc, h1⟩
        exact ⟨c, hc, ((GetValue_eq_one_iff c).1 h1).2⟩
      · rintro ⟨c, hc, h1⟩
        exact ⟨c, hc, (GetValue_eq_one_iff c).2 ⟨hup c hc, h1⟩⟩
    rw [GetTotal_cons first rest hf, sum_GetValue_up _ hup]
    constructor
    · intro hyp
      rw [if_pos ⟨hace.2 hyp.1, hyp.2⟩]
    · intro hyp
      rw [if_neg (fun hh => hyp ⟨hace.1 hh.1, hh.2⟩)]

theorem aceCountings_form (h : Hand) (t : Int) (ht : t ∈ aceCountings h) :
    ∃ k : Nat, k ≤ h.countP (fun c => decide (c.m_Rank = Rank.ACE))
      ∧ t = hardTotal h + 10 * (k : Int) := by
  induction h generalizing t with
  | nil =>
    simp only [aceCountings, List.mem_singleton] at ht
    exact ⟨0, Nat.le_refl _, by simp [ht, hardTotal]⟩
  | cons c rest ih =>
    by_cases hc : c.m_Rank = Rank.ACE
    · simp only [aceCountings, hc, if_true, List.mem_append, List.mem_map] at ht
      have hfv : Rank.ACE.faceValue = 1 := by decide
      rcases ht with ⟨u, hu, rfl⟩ | ⟨u, hu, rfl⟩
      · obtain ⟨k, hk, hku⟩ := ih u hu
        refine ⟨k, ?_, ?_⟩
        · simp only [List.countP_cons, hc, decide_True, if_true]
          omega
        · simp only [hardTotal, List.map_cons, List.sum_cons, hc, hfv] at hku ⊢
          omega
      · obtain ⟨k, hk, hku⟩ := ih u hu
        refine ⟨k + 1, ?_, ?_⟩
        · simp only [List.countP_cons, hc, decide_True, if_true]
          omega
        · simp only [hardTotal, List.map_cons, List.sum_cons, hc, hfv] at hku ⊢
          push_cast
          omega
    · simp only [aceCountings, hc, if_false, List.mem_map] at ht
      obtain ⟨u, hu, rfl⟩ := ht
      obtain ⟨k, hk, hku⟩ := ih u hu
      refine ⟨k, ?_, ?_⟩
      · simp only [List.countP_cons, hc, decide_False]
        simpa using hk
      · simp only [hardTotal, List.map_cons, List.sum_cons] at hku ⊢
        omega

theorem hardTotal_mem (h : Hand) : hardTotal h ∈ aceCountings h := by
  induction h with
  | nil => simp [aceCountings, hardTotal]
  | cons c rest ih =>
    by_cases hc : c.m_Rank = Rank.ACE
    · have hfv : Rank.ACE.faceValue = 1 := by decide
      simp only [aceCountings, hc, if_true, List.mem_append, List.mem_map]
      left
      exact ⟨hardTotal rest, ih, by simp [hardTotal, hc, hfv]⟩
    · simp only [aceCountings, hc, if_false, List.mem_map]
      exact ⟨hardTotal rest, ih, by simp [hardTotal]⟩

theorem hardTotal_add_ten_mem (h : Hand) (hace : ∃ c ∈ h, c.m_Rank = Rank.ACE) :
    hardTotal h + 10 ∈ aceCountings h := by
  induction h with
  | nil =>
    obtain ⟨c, hc, _⟩ := hace
    simp at hc
  | cons c rest ih =>
    by_cases hc : c.m_Rank = Rank.ACE
    · have hfv : Rank.ACE.faceValue = 1 := by decide
      simp only [aceCountings, hc, if_true, List.mem_append, List.mem_map]
      right
      refine ⟨hardTotal rest, hardTotal_mem rest, ?_⟩
      simp only [hardTotal, List.map_cons, List.sum_cons, hc, hfv]
      omega
    · have hrest : ∃ x ∈ rest, x.m_Rank = Rank.ACE := by
        obtain ⟨x, hx, hxr⟩ := hace
        rcases List.mem_cons.1 hx with rfl | hx2
        · exact absurd hxr hc
        · exact ⟨x, hx2, hxr⟩
      simp only [aceCountings, hc, if_false, List.mem_map]
      refine ⟨hardTotal rest + 10, ih hrest, ?_⟩
      simp only [hardTotal, List.map_cons, List.sum_cons]
      omega

theorem countP_ace_le_hardTotal (h : Hand) :
    ((h.countP (fun c => decide (c.m_Rank = Rank.ACE)) : Nat) : Int) ≤ hardTotal h := by
  induction h with
  | nil => simp [hardTotal]
  | cons c rest ih =>
    have hpos := (faceValue_pos c.m_Rank).1
    have hle : (c :: rest).countP (fun c => decide (c.m_Rank = Rank.ACE))
        ≤ rest.countP (fun c => decide (c.m_Rank = Rank.ACE)) + 1 := by
      rw [List.countP_cons]
      split <;> omega
    simp only [hardTotal, List.map_cons, List.sum_cons] at ih ⊢
    omega

theorem ace_of_countP_pos (h : Hand) (hpos : 0 < h.countP (fun c => decide (c.m_Rank = Rank.ACE))) :
    ∃ c ∈ h, c.m_Rank = Rank.ACE := by
  obtain ⟨c, hc, hr⟩ := List.countP_pos_iff.1 hpos
  exact ⟨c, hc, of_decide_eq_true hr⟩

/-- C18: for a hand whose cards are all face up, with or without cards, `Hand::GetTotal` is the best
blackjack value: when some way of counting each Ace as 1 or as 11 gives a total of at
most 21, it is the greatest such total, and otherwise it is the total with every Ace
counted as 1; so a hand whose all-Aces-as-1 total is at most 21 never totals more than
21, and the hand is busted exactly when its all-Aces-as-1 total exceeds 21. -/
theorem GetTotal_best_value (h : Hand) (hup : ∀ c ∈ h, c.m_IsFaceUp = true) :
    ((∃ t ∈ aceCountings h, t ≤ 21) →
        Hand.GetTotal h ∈ aceCountings h ∧ Hand.GetTotal h ≤ 21
        ∧ ∀ t ∈ aceCountings h, t ≤ 21 → t ≤ Hand.GetTotal h)
    ∧ ((¬ ∃ t ∈ aceCountings h, t ≤ 21) → Hand.GetTotal h = hardTotal h)
    ∧ (hardTotal h ≤ 21 → Hand.GetTotal h ≤ 21)
    ∧ (∀ name : String, GenericPlayer.IsBusted ⟨name, h⟩ = true ↔ hardTotal h > 21) := by
  have hcases := GetTotal_up h hup
  have hmin : ∀ t ∈ aceCountings h, hardTotal h ≤ t := by
    intro t ht
    obtain ⟨k, _, hk⟩ := aceCountings_form h t ht
    omega
  have hbound : hardTotal h ≤ 21 → Hand.GetTotal h ≤ 21 := by
    intro hle
    by_cases hyp : (∃ c ∈ h, c.m_Rank = Rank.ACE) ∧ hardTotal h ≤ 11
    · rw [hcases.1 hyp]
      omega
    · rw [hcases.2 hyp]
      exact hle
  have hge : hardTotal h ≤ Hand.GetTotal h := by
    by_cases hyp : (∃ c ∈ h, c.m_Rank = Rank.ACE) ∧ hardTotal h ≤ 11
    · rw [hcases.1 hyp]
      omega
    · rw [hcases.2 hyp]
  refine ⟨?_, ?_, hbound, ?_⟩
  · rintro ⟨t0, ht0, ht0le⟩
    have hS : hardTotal h ≤ 21 := le_trans (hmin t0 ht0) ht0le
    refine ⟨?_, hbound hS, ?_⟩
    · by_cases hyp : (∃ c ∈ h, c.m_Rank = Rank.ACE) ∧ hardTotal h ≤ 11
      · rw [hcases.1 hyp]
        exact hardTotal_add_ten_mem h hyp.1
      · rw [hcases.2 hyp]
        exact hardTotal_mem h
    · intro t ht htle
      obtain ⟨k, hk, hkt⟩ := aceCountings_form h t ht
      have hnum := countP_ace_le_hardTotal h
      by_cases hyp : (∃ c ∈ h, c.m_Rank = Rank.ACE) ∧ hardTotal h ≤ 11
      · rw [hcases.1 hyp]
        omega
      · rw [hcases.2 hyp]
        by_cases hk0 : k = 0
        · subst hk0
          omega
        · have hace : ∃ c ∈ h, c.m_Rank = Rank.ACE := ace_of_countP_pos h (by omega)
          have h11 : ¬ hardTotal h ≤ 11 := fun hle => hyp ⟨hace, hle⟩
          omega
  · intro hnone
    by_cases hyp : (∃ c ∈ h, c.m_Rank = Rank.ACE) ∧ hardTotal h ≤ 11
    · exfalso
      exact hnone ⟨hardTotal h, hardTotal_mem h, by omega⟩
    · exact hcases.2 hyp
  · intro name
    simp only [GenericPlayer.IsBusted, GenericPlayer.GetTotal, decide_eq_true_eq]
    constructor
    · intro hb
      by_contra hle
      have := hbound (by omega)
      omega
    · intro hb
      omega

theorem GetTotal_best_value_witness :
    (∀ c ∈ ([up Rank.ACE Suit.SPADES, up Rank.ACE Suit.CLUBS, up Rank.NINE Suit.HEARTS] : Hand),
        c.m_IsFaceUp = true)
    ∧ aceCountings [up Rank.ACE Suit.SPADES, up Rank.ACE Suit.CLUBS, up Rank.NINE Suit.HEARTS]
        = [11, 21, 21, 31]
    ∧ Hand.GetTotal [up Rank.ACE Suit.SPADES, up Rank.ACE Suit.CLUBS, up Rank.NINE Suit.HEARTS]
        ≤ 21
    ∧ (∀ t ∈ aceCountings
          [up Rank.ACE Suit.SPADES, up Rank.ACE Suit.CLUBS, up Rank.NINE Suit.HEARTS],
        t ≤ 21 →
        t ≤ Hand.GetTotal
          [up Rank.ACE Suit.SPADES, up Rank.ACE Suit.CLUBS, up Rank.NINE Suit.HEARTS]) :=
  ⟨by decide, by decide,
    ((GetTotal_best_value
      [up Rank.ACE Suit.SPADES, up Rank.ACE Suit.CLUBS, up Rank.NINE Suit.HEARTS]
      (by decide)).1 ⟨11, by decide, by decide⟩).2.1,
    ((GetTotal_best_value
      [up Rank.ACE Suit.SPADES, up Rank.ACE Suit.CLUBS, up Rank.NINE Suit.HEARTS]
      (by decide)).1 ⟨11, by decide, by decide⟩).2.2⟩

/-! ## The additional-card loop -/

theorem IsBusted_eq (p : GenericPlayer) : p.IsBusted = decide (Hand.GetTotal p.m_Cards > 21) := rfl

theorem loopBody_nil (p : GenericPlayer) (hp : Hand.GetTotal p.m_Cards ≤ 21) :
    Deck.loopBody [] p = ([], p, [Event.OutOfCards]) := by
  have hnb : ¬ (21 < Hand.GetTotal p.m_Cards) := by omega
  have hsame : ({ p with m_Cards := p.m_Cards } : GenericPlayer) = p := rfl
  simp [Deck.loopBody, Deck.Deal, hsame, IsBusted_eq, hnb]

theorem loopBody_append (front : Hand) (c : Card) (p : GenericPlayer) :
    Deck.loopBody (front ++ [c]) p =
      (front, { p with m_Cards := p.m_Cards ++ [c] },
        if Hand.GetTotal (p.m_Cards ++ [c]) > 21 then [Event.Bust p.m_Name] else []) := by
  simp [Deck.loopBody, Deck.Deal, Hand.Add, IsBusted_eq, GenericPlayer.Bust]

theorem AdditionalCards_busted (role : Role) (fuel : Nat) (deck : Hand) (p : GenericPlayer)
    (input : List Char) (hp : Hand.GetTotal p.m_Cards > 21) :
    Deck.AdditionalCards role (fuel + 1) deck p input = some (deck, p, input, []) := by
  simp [Deck.AdditionalCards, Deck.loopGuard, IsBusted_eq, hp]

theorem AdditionalCards_stand (role : Role) (fuel : Nat) (deck : Hand) (p : GenericPlayer)
    (input rest : List Char) (hp : Hand.GetTotal p.m_Cards ≤ 21)
    (hhit : GenericPlayer.IsHitting role p input = some (false, rest)) :
    Deck.AdditionalCards role (fuel + 1) deck p input = some (deck, p, rest, []) := by
  have hnb : ¬ (21 < Hand.GetTotal p.m_Cards) := by omega
  simp [Deck.AdditionalCards, Deck.loopGuard, IsBusted_eq, hnb, hhit]

theorem AdditionalCards_hit (role : Role) (fuel : Nat) (deck : Hand) (p : GenericPlayer)
    (input rest : List Char) (hp : Hand.GetTotal p.m_Cards ≤ 21)
    (hhit : GenericPlayer.IsHitting role p input = some (true, rest)) :
    Deck.AdditionalCards role (fuel + 1) deck p input =
      match Deck.AdditionalCards role fuel (Deck.loopBody deck p).1 (Deck.loopBody deck p).2.1
          rest with
      | none => none
      | some (d, q, i, e) => some (d, q, i, (Deck.loopBody deck p).2.2 ++ e) := by
  have hnb : ¬ (21 < Hand.GetTotal p.m_Cards) := by omega
  simp [Deck.AdditionalCards, Deck.loopGuard, IsBusted_eq, hnb, hhit]

theorem AdditionalCards_no_read (role : Role) (fuel : Nat) (deck : Hand) (p : GenericPlayer)
    (input : List Char) (hp : Hand.GetTotal p.m_Cards ≤ 21)
    (hhit : GenericPlayer.IsHitting role p input = none) :
    Deck.AdditionalCards role (fuel + 1) deck p input = none := by
  have hnb : ¬ (21 < Hand.GetTotal p.m_Cards) := by omega
  simp [Deck.AdditionalCards, Deck.loopGuard, IsBusted_eq, hnb, hhit]

theorem deck_nil_or_append (deck : Hand) : deck = [] ∨ ∃ front c, deck = front ++ [c] := by
  by_cases hne : deck = []
  · exact Or.inl hne
  · exact Or.inr ⟨deck.dropLast, deck.getLast hne, (List.dropLast_append_getLast hne).symm⟩

theorem AdditionalCards_trace (role : Role) (fuel : Nat) :
    ∀ (deck : Hand) (p : GenericPlayer) (input : List Char) (d : Hand) (q : GenericPlayer)
      (i : List Char) (ev : List Event),
      Deck.AdditionalCards role fuel deck p input = some (d, q, i, ev) →
      q.m_Name = p.m_Name
      ∧ ∃ added : Hand, q.m_Cards = p.m_Cards ++ added ∧ deck = d ++ added.reverse
        ∧ (Hand.GetTotal p.m_Cards > 21 → added = [] ∧ ev = [])
        ∧ (Hand.GetTotal p.m_Cards ≤ 21 →
            (∀ pre : Hand, pre <+: added → pre ≠ added →
              Hand.GetTotal (p.m_Cards ++ pre) ≤ 21)
            ∧ ev.countP Event.isBust = if Hand.GetTotal q.m_Cards > 21 then 1 else 0) := by
  induction fuel with
  | zero =>
    intro deck p input d q i ev h
    simp [Deck.AdditionalCards] at h
  | succ n ih =>
    intro deck p input d q i ev h
    by_cases hp : Hand.GetTotal p.m_Cards > 21
    · rw [AdditionalCards_busted role n deck p input hp] at h
      simp only [Option.some.injEq, Prod.mk.injEq] at h
      obtain ⟨rfl, rfl, rfl, rfl⟩ := h
      exact ⟨rfl, [], by simp, by simp, fun _ => ⟨rfl, rfl⟩, fun hle => absurd hp (by omega)⟩
    · have hle : Hand.GetTotal p.m_Cards ≤ 21 := by omega
      cases hhit : GenericPlayer.IsHitting role p input with
      | none =>
        rw [AdditionalCards_no_read role n deck p input hle hhit] at h
        exact absurd h (by simp)
      | some answer =>
        obtain ⟨b, rest⟩ := answer
        cases b with
        | false =>
          rw [AdditionalCards_stand role n deck p input rest hle hhit] at h
          simp only [Option.some.injEq, Prod.mk.injEq] at h
          obtain ⟨rfl, rfl, rfl, rfl⟩ := h
          refine ⟨rfl, [], by simp, by simp, fun _ => ⟨rfl, rfl⟩, fun _ => ⟨?_, ?_⟩⟩
          · intro pre hpre hneq
            exact absurd (List.prefix_nil.1 hpre) hneq
          · simp [hp]
        | true =>
          rw [AdditionalCards_hit role n deck p input rest hle hhit] at h
          cases hrec : Deck.AdditionalCards role n (Deck.loopBody deck p).1
              (Deck.loopBody deck p).2.1 rest with
          | none =>
            rw [hrec] at h
            exact absurd h (by simp)
          | some r =>
            obtain ⟨d1, q1, i1, e1⟩ := r
            rw [hrec] at h
            simp only [Option.some.injEq, Prod.mk.injEq] at h
            obtain ⟨rfl, rfl, rfl, rfl⟩ := h
            have hih := ih _ _ _ _ _ _ _ hrec
            rcases deck_nil_or_append deck with hnil | ⟨front, c, hdeck⟩
            · subst hnil
              rw [loopBody_nil p hle] at hih ⊢
              obtain ⟨hname, added, hcards, hd, _, hnb⟩ := hih
              refine ⟨hname, added, hcards, hd, fun hgt => absurd hgt hp, fun _ => ⟨(hnb hle).1, ?_⟩⟩
              rw [List.countP_append, (hnb hle).2]
              simp [Event.isBust]
            · subst hdeck
              rw [loopBody_append front c p] at hih ⊢
              obtain ⟨hname, added, hcards, hd, hb, hnb⟩ := hih
              simp only at hname hcards hd hb hnb
              refine ⟨hname, c :: added, ?_, ?_, fun hgt => absurd hgt hp, fun _ => ⟨?_, ?_⟩⟩
              · rw [hcards]
                simp
              · rw [hd]
                simp
              · intro pre hpre hneq
                cases pre with
                | nil => simpa using hle
                | cons x pre1 =>
                  have hx : x = c ∧ pre1 <+: added := List.cons_prefix_cons.1 hpre
                  obtain ⟨rfl, hpre1⟩ := hx
                  by_cases hp1 : Hand.GetTotal (p.m_Cards ++ [x]) > 21
                  · have hnil := (hb hp1).1
                    subst hnil
                    have := List.prefix_nil.1 hpre1
                    subst this
                    exact absurd rfl hneq
                  · have hne1 : pre1 ≠ added := fun heq => hneq (by rw [heq])
                    have := (hnb (by omega)).1 pre1 hpre1 hne1
                    simpa using this
              · by_cases hp1 : Hand.GetTotal (p.m_Cards ++ [c]) > 21
                · obtain ⟨hnil, hev⟩ := hb hp1
                  subst hnil
                  subst hev
                  have hq : q1.m_Cards = p.m_Cards ++ [c] := by simpa using hcards
                  rw [hq]
                  simp [hp1, Event.isBust]
                · have := (hnb (by omega)).2
                  rw [List.countP_append, this]
                  simp [hp1]

theorem AdditionalCards_mono (role : Role) (fuel : Nat) :
    ∀ (deck : Hand) (p : GenericPlayer) (input : List Char)
      (r : Hand × GenericPlayer × List Char × List Event),
      Deck.AdditionalCards role fuel deck p input = some r →
      Deck.AdditionalCards role (fuel + 1) deck p input = some r := by
  induction fuel with
  | zero =>
    intro deck p input r h
    simp [Deck.AdditionalCards] at h
  | succ n ih =>
    intro deck p input r h
    by_cases hp : Hand.GetTotal p.m_Cards > 21
    · rw [AdditionalCards_busted role n deck p input hp] at h
      rw [AdditionalCards_busted role (n + 1) deck p input hp]
      exact h
    · have hle : Hand.GetTotal p.m_Cards ≤ 21 := by omega
      cases hhit : GenericPlayer.IsHitting role p input with
      | none =>
        rw [AdditionalCards_no_read role n deck p input hle hhit] at h
        exact absurd h (by simp)
      | some answer =>
        obtain ⟨b, rest⟩ := answer
        cases b with
        | false =>
          rw [AdditionalCards_stand role n deck p input rest hle hhit] at h
          rw [AdditionalCards_stand role (n + 1) deck p input rest hle hhit]
          exact h
        | true =>
          rw [AdditionalCards_hit role n deck p input rest hle hhit] at h
          rw [AdditionalCards_hit role (n + 1) deck p input rest hle hhit]
          cases hrec : Deck.AdditionalCards role n (Deck.loopBody deck p).1
              (Deck.loopBody deck p).2.1 rest with
          | none =>
            rw [hrec] at h
            exact absurd h (by simp)
          | some r1 =>
            rw [hrec] at h
            rw [ih _ _ _ r1 hrec]
            exact h

theorem AdditionalCards_mono_le (role : Role) (fuel more : Nat) (deck : Hand) (p : GenericPlayer)
    (input : List Char) (r : Hand × GenericPlayer × List Char × List Event)
    (hle : fuel ≤ more) (h : Deck.AdditionalCards role fuel deck p input = some r) :
    Deck.AdditionalCards role more deck p input = some r := by
  induction more with
  | zero =>
    have h0 : fuel = 0 := by omega
    subst h0
    exact h
  | succ m ih =>
    by_cases heq : fuel = m + 1
    · subst heq
      exact h
    · exact AdditionalCards_mono role m deck p input r (ih (by omega))

theorem hardTotal_append (h : Hand) (c : Card) :
    hardTotal (h ++ [c]) = hardTotal h + c.m_Rank.faceValue := by
  simp [hardTotal]

theorem GetTotal_up_bounds (h : Hand) (hup : ∀ c ∈ h, c.m_IsFaceUp = true) :
    hardTotal h ≤ Hand.GetTotal h
    ∧ (Hand.GetTotal h = hardTotal h
        ∨ (Hand.GetTotal h = hardTotal h + 10 ∧ hardTotal h ≤ 11)) := by
  have hcases := GetTotal_up h hup
  by_cases hyp : (∃ c ∈ h, c.m_Rank = Rank.ACE) ∧ hardTotal h ≤ 11
  · have := hcases.1 hyp
    exact ⟨by omega, Or.inr ⟨this, hyp.2⟩⟩
  · have := hcases.2 hyp
    exact ⟨by omega, Or.inl this⟩

theorem all_up_append (h : Hand) (c : Card) (hup : ∀ x ∈ h, x.m_IsFaceUp = true)
    (hc : c.m_IsFaceUp = true) : ∀ x ∈ h ++ [c], x.m_IsFaceUp = true := by
  intro x hx
  rcases List.mem_append.1 hx with hx1 | hx2
  · exact hup x hx1
  · rw [List.mem_singleton.1 hx2]
    exact hc

theorem GetTotal_after_hit (h : Hand) (c : Card) (hup : ∀ x ∈ h, x.m_IsFaceUp = true)
    (hc : c.m_IsFaceUp = true) (h16 : Hand.GetTotal h ≤ 16) :
    Hand.GetTotal (h ++ [c]) ≤ 26 := by
  have h1 := GetTotal_up_bounds h hup
  have h2 := GetTotal_up_bounds (h ++ [c]) (all_up_append h c hup hc)
  have h3 := hardTotal_append h c
  have h4 := faceValue_pos c.m_Rank
  omega

theorem House_IsHitting_eq (house : GenericPlayer) (input : List Char) :
    GenericPlayer.IsHitting Role.House house input
      = some (decide (Hand.GetTotal house.m_Cards ≤ 16), input) := rfl

theorem house_stop (fuel : Nat) (deck : Hand) (house : GenericPlayer) (input : List Char)
    (h17 : 17 ≤ Hand.GetTotal house.m_Cards) :
    Deck.AdditionalCards Role.House (fuel + 1) deck house input = some (deck, house, input, []) := by
  by_cases hp : Hand.GetTotal house.m_Cards > 21
  · exact AdditionalCards_busted Role.House fuel deck house input hp
  · have hn : ¬ (Hand.GetTotal house.m_Cards ≤ 16) := by omega
    exact AdditionalCards_stand Role.House fuel deck house input input (by omega)
      (by rw [House_IsHitting_eq]; simp [hn])

theorem house_loop (k : Nat) :
    ∀ (deck : Hand) (house : GenericPlayer) (input : List Char) (fuel : Nat),
      (∀ c ∈ deck, c.m_IsFaceUp = true) → (∀ c ∈ house.m_Cards, c.m_IsFaceUp = true) →
      17 - hardTotal house.m_Cards ≤ (k : Int) → k ≤ deck.length → k + 1 ≤ fuel →
      ∃ (d : Hand) (q : GenericPlayer) (ev : List Event) (added : Hand),
        Deck.AdditionalCards Role.House fuel deck house input = some (d, q, input, ev)
        ∧ q.m_Cards = house.m_Cards ++ added
        ∧ deck = d ++ added.reverse
        ∧ added.length ≤ k
        ∧ 17 ≤ Hand.GetTotal q.m_Cards
        ∧ (17 ≤ Hand.GetTotal house.m_Cards → added = [])
        ∧ (Hand.GetTotal house.m_Cards ≤ 16 → Hand.GetTotal q.m_Cards ≤ 26)
        ∧ (∀ pre : Hand, pre <+: added → pre ≠ added →
            Hand.GetTotal (house.m_Cards ++ pre) ≤ 16) := by
  have hstop : ∀ (deck : Hand) (house : GenericPlayer) (input : List Char) (fuel k : Nat),
      17 ≤ Hand.GetTotal house.m_Cards → k + 1 ≤ fuel →
      ∃ (d : Hand) (q : GenericPlayer) (ev : List Event) (added : Hand),
        Deck.AdditionalCards Role.House fuel deck house input = some (d, q, input, ev)
        ∧ q.m_Cards = house.m_Cards ++ added
        ∧ deck = d ++ added.reverse
        ∧ added.length ≤ k
        ∧ 17 ≤ Hand.GetTotal q.m_Cards
        ∧ (17 ≤ Hand.GetTotal house.m_Cards → added = [])
        ∧ (Hand.GetTotal house.m_Cards ≤ 16 → Hand.GetTotal q.m_Cards ≤ 26)
        ∧ (∀ pre : Hand, pre <+: added → pre ≠ added →
            Hand.GetTotal (house.m_Cards ++ pre) ≤ 16) := by
    intro deck house input fuel k h17 hfuel
    obtain ⟨f, rfl⟩ : ∃ f, fuel = f + 1 := ⟨fuel - 1, by omega⟩
    refine ⟨deck, house, [], [], house_stop f deck house input h17, by simp, by simp,
      by simp, h17, fun _ => rfl, fun h16 => absurd h16 (by omega), ?_⟩
    intro pre hpre hneq
    exact absurd (List.prefix_nil.1 hpre) hneq
  induction k with
  | zero =>
    intro deck house input fuel _ hhouse hk _ hfuel
    have hb := (GetTotal_up_bounds house.m_Cards hhouse).1
    exact hstop deck house input fuel 0 (by omega) hfuel
  | succ k ih =>
    intro deck house input fuel hdeck hhouse hk hlen hfuel
    by_cases h17 : 17 ≤ Hand.GetTotal house.m_Cards
    · exact hstop deck house input fuel (k + 1) h17 hfuel
    · have h16 : Hand.GetTotal house.m_Cards ≤ 16 := by omega
      obtain ⟨f, rfl⟩ : ∃ f, fuel = f + 1 := ⟨fuel - 1, by omega⟩
      rcases deck_nil_or_append deck with hnil | ⟨front, c, hsplit⟩
      · subst hnil
        simp at hlen
      · subst hsplit
        have hc : c.m_IsFaceUp = true := hdeck c (by simp)
        have hfront : ∀ x ∈ front, x.m_IsFaceUp = true := fun x hx => hdeck x (by simp [hx])
        have hup1 := all_up_append house.m_Cards c hhouse hc
        have hsum := hardTotal_append house.m_Cards c
        have hfv := faceValue_pos c.m_Rank
        have hlen1 : k ≤ front.length := by
          simp only [List.length_append, List.length_singleton] at hlen
          omega
        obtain ⟨d, q, ev, added, hrun, hcards, hd, hcount, hq17, hnil, hq26, hpre⟩ :=
          ih front { house with m_Cards := house.m_Cards ++ [c] } input f hfront hup1
            (by simp only; omega) hlen1 (by omega)
        simp only at hcards hnil hq26 hpre
        have hhit : GenericPlayer.IsHitting Role.House house input = some (true, input) := by
          rw [House_IsHitting_eq]
          simp [h16]
        refine ⟨d, q,
          (if Hand.GetTotal (house.m_Cards ++ [c]) > 21 then [Event.Bust house.m_Name] else [])
            ++ ev,
          c :: added, ?_, ?_, ?_, ?_, hq17, fun h => absurd h h17, fun _ => ?_, ?_⟩
        · rw [AdditionalCards_hit Role.House f (front ++ [c]) house input input (by omega) hhit,
            loopBody_append front c house]
          simp only [hrun]
        · rw [hcards]
          simp
        · rw [hd]
          simp
        · simp only [List.length_cons]
          omega
        · by_cases hnext : 17 ≤ Hand.GetTotal (house.m_Cards ++ [c])
          · have := hnil hnext
            subst this
            rw [hcards]
            simpa using GetTotal_after_hit house.m_Cards c hhouse hc h16
          · exact hq26 (by omega)
        · intro pre hp hneq
          cases pre with
          | nil => simpa using h16
          | cons x pre1 =>
            obtain ⟨rfl, hpre1⟩ := List.cons_prefix_cons.1 hp
            have hne1 : pre1 ≠ added := fun heq => hneq (by rw [heq])
            have := hpre pre1 hpre1 hne1
            simpa using this

/-- C14: for a house hand and a deck whose cards are all face up, the deck holding at
least 17 cards, `Deck::AdditionalCards` on the house returns for every fuel of 18 or
more, with the same result, after at most 17 deals; every hand held before the last deal had
a total of 16 or less, the final total is at least 17, and it is at most 26 when the
house started with 16 or less. -/
theorem House_AdditionalCards_terminates (deck : Hand) (house : GenericPlayer)
    (input : List Char) (hdeck : ∀ c ∈ deck, c.m_IsFaceUp = true)
    (hhouse : ∀ c ∈ house.m_Cards, c.m_IsFaceUp = true) (hlen : 17 ≤ deck.length) :
    ∃ (d : Hand) (q : GenericPlayer) (ev : List Event) (added : Hand),
      (∀ fuel : Nat, 18 ≤ fuel →
        Deck.AdditionalCards Role.House fuel deck house input = some (d, q, input, ev))
      ∧ q.m_Cards = house.m_Cards ++ added
      ∧ deck = d ++ added.reverse
      ∧ added.length ≤ 17
      ∧ (∀ pre : Hand, pre <+: added → pre ≠ added →
          Hand.GetTotal (house.m_Cards ++ pre) ≤ 16)
      ∧ 17 ≤ Hand.GetTotal q.m_Cards
      ∧ (q.IsBusted = true ∨ House.IsHitting q = false)
      ∧ (Hand.GetTotal house.m_Cards ≤ 16 → Hand.GetTotal q.m_Cards ≤ 26) := by
  have hnonneg := countP_ace_le_hardTotal house.m_Cards
  obtain ⟨d, q, ev, added, hrun, hcards, hd, hcount, hq17, _, hq26, hpre⟩ :=
    house_loop 17 deck house input 18 hdeck hhouse (by omega) hlen (by omega)
  refine ⟨d, q, ev, added, ?_, hcards, hd, hcount, hpre, hq17, ?_, hq26⟩
  · intro fuel hfuel
    exact AdditionalCards_mono_le Role.House 18 fuel deck house input _ hfuel hrun
  · right
    simp only [House.IsHitting, GenericPlayer.GetTotal, decide_eq_false_iff_not]
    omega

theorem House_AdditionalCards_terminates_witness :
    (∀ c ∈ Deck.Populate [], c.m_IsFaceUp = true)
    ∧ (∀ c ∈ houseSixteen.m_Cards, c.m_IsFaceUp = true)
    ∧ 17 ≤ (Deck.Populate []).length
    ∧ ∃ (d : Hand) (q : GenericPlayer) (ev : List Event) (added : Hand),
        (∀ fuel : Nat, 18 ≤ fuel →
          Deck.AdditionalCards Role.House fuel (Deck.Populate []) houseSixteen []
            = some (d, q, [], ev))
        ∧ q.m_Cards = houseSixteen.m_Cards ++ added
        ∧ Deck.Populate [] = d ++ added.reverse
        ∧ added.length ≤ 17
        ∧ (∀ pre : Hand, pre <+: added → pre ≠ added →
            Hand.GetTotal (houseSixteen.m_Cards ++ pre) ≤ 16)
        ∧ 17 ≤ Hand.GetTotal q.m_Cards
        ∧ (q.IsBusted = true ∨ House.IsHitting q = false)
        ∧ (Hand.GetTotal houseSixteen.m_Cards ≤ 16 → Hand.GetTotal q.m_Cards ≤ 26) :=
  ⟨by decide, by decide, by decide,
    House_AdditionalCards_terminates (Deck.Populate []) houseSixteen []
      (by decide) (by decide) (by decide)⟩

/-- C15: when a participant, player or house, enters `Deck::AdditionalCards` not busted
and the loop returns, the bust announcement is printed exactly once if the final hand is
busted and not at all otherwise; the final hand is the entry hand followed by the cards
dealt, and before the last of them was dealt no hand held was busted. -/
theorem AdditionalCards_bust_once (role : Role) (fuel : Nat) (deck : Hand) (p : GenericPlayer)
    (input : List Char) (d : Hand) (q : GenericPlayer) (i : List Char) (ev : List Event)
    (hentry : p.IsBusted = false)
    (hrun : Deck.AdditionalCards role fuel deck p input = some (d, q, i, ev)) :
    ev.countP Event.isBust = (if q.IsBusted = true then 1 else 0)
    ∧ ∃ added : Hand, q.m_Cards = p.m_Cards ++ added ∧ deck = d ++ added.reverse
      ∧ ∀ pre : Hand, pre <+: added → pre ≠ added →
          GenericPlayer.IsBusted ⟨p.m_Name, p.m_Cards ++ pre⟩ = false := by
  have hle : Hand.GetTotal p.m_Cards ≤ 21 := by
    simp only [IsBusted_eq, decide_eq_false_iff_not] at hentry
    omega
  obtain ⟨_, added, hcards, hd, _, hnb⟩ := AdditionalCards_trace role fuel deck p input d q i ev hrun
  obtain ⟨hpre, hcount⟩ := hnb hle
  refine ⟨?_, added, hcards, hd, ?_⟩
  · rw [hcount]
    simp [IsBusted_eq]
  · intro pre h1 h2
    have := hpre pre h1 h2
    simp only [IsBusted_eq, decide_eq_false_iff_not]
    omega

theorem AdditionalCards_bust_once_witness :
    annTwenty.IsBusted = false
    ∧ Deck.AdditionalCards Role.Player 3 [up Rank.TWO Suit.CLUBS, up Rank.FIVE Suit.SPADES]
          annTwenty ['y']
        = some ([up Rank.TWO Suit.CLUBS],
            ⟨"Ann", [up Rank.KING Suit.HEARTS, up Rank.QUEEN Suit.HEARTS,
              up Rank.FIVE Suit.SPADES]⟩, [], [Event.Bust "Ann"])
    ∧ [Event.Bust "Ann"].countP Event.isBust
        = (if GenericPlayer.IsBusted ⟨"Ann", [up Rank.KING Suit.HEARTS,
            up Rank.QUEEN Suit.HEARTS, up Rank.FIVE Suit.SPADES]⟩ = true then 1 else 0) :=
  ⟨by decide, by decide,
    (AdditionalCards_bust_once Role.Player 3
      [up Rank.TWO Suit.CLUBS, up Rank.FIVE Suit.SPADES] annTwenty ['y']
      [up Rank.TWO Suit.CLUBS]
      ⟨"Ann", [up Rank.KING Suit.HEARTS, up Rank.QUEEN Suit.HEARTS, up Rank.FIVE Suit.SPADES]⟩
      [] [Event.Bust "Ann"] (by decide) (by decide)).1⟩

/-! ## The deck during a round -/

theorem Deal_initial_segment (deck aHand : Hand) : (Deck.Deal deck aHand).1 <+: deck := by
  rcases deck_nil_or_append deck with hnil | ⟨front, c, hsplit⟩
  · subst hnil
    exact List.prefix_refl _
  · subst hsplit
    simp [Deck.Deal]

theorem dealPlayers_initial_segment (players : List GenericPlayer) :
    ∀ deck : Hand, (Game.dealPlayers deck players).1 <+: deck := by
  induction players with
  | nil =>
    intro deck
    exact List.prefix_refl _
  | cons p ps ih =>
    intro deck
    exact (ih (Deck.Deal deck p.m_Cards).1).trans (Deal_initial_segment deck p.m_Cards)

theorem dealRound_initial_segment (g : Game) : g.dealRound.1.m_Deck <+: g.m_Deck :=
  (Deal_initial_segment _ _).trans (dealPlayers_initial_segment g.m_Players g.m_Deck)

theorem INITIAL_DEAL_initial_segment (g : Game) : g.INITIAL_DEAL.1.m_Deck <+: g.m_Deck :=
  (dealRound_initial_segment g.dealRound.1).trans (dealRound_initial_segment g)

theorem AdditionalCards_initial_segment (role : Role) (fuel : Nat) (deck : Hand) (p : GenericPlayer)
    (input : List Char) (d : Hand) (q : GenericPlayer) (i : List Char) (ev : List Event)
    (hrun : Deck.AdditionalCards role fuel deck p input = some (d, q, i, ev)) : d <+: deck := by
  obtain ⟨_, added, _, hd, _⟩ := AdditionalCards_trace role fuel deck p input d q i ev hrun
  rw [hd]
  exact List.prefix_append _ _

theorem playerTurns_initial_segment (fuel : Nat) (players : List GenericPlayer) :
    ∀ (deck : Hand) (input : List Char) (d : Hand) (ps : List GenericPlayer) (i : List Char)
      (ev : List Event),
      Game.playerTurns fuel deck players input = some (d, ps, i, ev) → d <+: deck := by
  induction players with
  | nil =>
    intro deck input d ps i ev h
    simp only [Game.playerTurns, Option.some.injEq, Prod.mk.injEq] at h
    rw [← h.1]
  | cons p rest ih =>
    intro deck input d ps i ev h
    rw [Game.playerTurns] at h
    cases hfirst : Deck.AdditionalCards Role.Player fuel deck p input with
    | none =>
      rw [hfirst] at h
      exact absurd h (by simp)
    | some r1 =>
      obtain ⟨d1, p1, i1, e1⟩ := r1
      rw [hfirst] at h
      simp only at h
      cases hrest : Game.playerTurns fuel d1 rest i1 with
      | none =>
        rw [hrest] at h
        exact absurd h (by simp)
      | some r2 =>
        obtain ⟨d2, ps2, i2, e2⟩ := r2
        rw [hrest] at h
        simp only [Option.some.injEq, Prod.mk.injEq] at h
        obtain ⟨rfl, _, _, _⟩ := h
        exact (ih d1 i1 d2 ps2 i2 e2 hrest).trans
          (AdditionalCards_initial_segment Role.Player fuel deck p input d1 p1 i1 e1 hfirst)

theorem PLAYER_TURNS_frame (fuel : Nat) (g : Game) (input : List Char) (g3 : Game)
    (i : List Char) (ev : List Event) (h : g.PLAYER_TURNS fuel input = some (g3, i, ev)) :
    g3.m_House = g.m_House ∧ g3.m_Deck <+: g.m_Deck := by
  unfold Game.PLAYER_TURNS at h
  cases hrun : Game.playerTurns fuel g.m_Deck g.m_Players input with
  | none =>
    rw [hrun] at h
    exact absurd h (by simp)
  | some r =>
    obtain ⟨d, ps, i1, e1⟩ := r
    rw [hrun] at h
    simp only [Option.some.injEq, Prod.mk.injEq] at h
    obtain ⟨rfl, _, _⟩ := h
    exact ⟨rfl, playerTurns_initial_segment fuel g.m_Players g.m_Deck input d ps i1 e1 hrun⟩

theorem DEALER_TURN_initial_segment (fuel : Nat) (g : Game) (input : List Char) (g5 : Game)
    (i : List Char) (ev : List Event) (h : g.DEALER_TURN fuel input = some (g5, i, ev)) :
    g5.m_Deck <+: g.m_Deck ∧ g5.m_Players = g.m_Players := by
  unfold Game.DEALER_TURN at h
  cases hrun : Deck.AdditionalCards Role.House fuel g.m_Deck g.m_House input with
  | none =>
    rw [hrun] at h
    exact absurd h (by simp)
  | some r =>
    obtain ⟨d, q, i1, e1⟩ := r
    rw [hrun] at h
    simp only [Option.some.injEq, Prod.mk.injEq] at h
    obtain ⟨rfl, _, _⟩ := h
    exact ⟨AdditionalCards_initial_segment Role.House fuel g.m_Deck g.m_House input d q i1 e1 hrun, rfl⟩

theorem Play_result (fuel : Nat) (g : Game) (input : List Char) (g1 : Game) (i : List Char)
    (ev : List Event) (h : g.Play fuel input = some (g1, i, ev)) :
    g1.m_Deck <+: g.m_Deck ∧ g1.m_House.m_Cards = [] ∧ ∀ p ∈ g1.m_Players, p.m_Cards = [] := by
  unfold Game.Play at h
  simp only at h
  cases hturns : g.INITIAL_DEAL.1.REVEAL_PLAYERS.1.PLAYER_TURNS fuel input with
  | none =>
    rw [hturns] at h
    exact absurd h (by simp)
  | some r3 =>
    obtain ⟨g3, i3, e3⟩ := r3
    rw [hturns] at h
    simp only at h
    cases hdealer : g3.DEALER_REVEAL.1.DEALER_TURN fuel i3 with
    | none =>
      rw [hdealer] at h
      exact absurd h (by simp)
    | some r5 =>
      obtain ⟨g5, i5, e5⟩ := r5
      rw [hdealer] at h
      simp only [Option.some.injEq, Prod.mk.injEq] at h
      obtain ⟨rfl, _, _⟩ := h
      have h3 := (PLAYER_TURNS_frame fuel _ input g3 i3 e3 hturns).2
      have h5 := (DEALER_TURN_initial_segment fuel _ i3 g5 i5 e5 hdealer).1
      have hdeck : g5.RESET.m_Deck <+: g.m_Deck :=
        h5.trans (h3.trans (INITIAL_DEAL_initial_segment g))
      refine ⟨hdeck, rfl, ?_⟩
      intro p hp
      simp only [Game.RESET, List.mem_map] at hp
      obtain ⟨q, _, rfl⟩ := hp
      rfl

/-- C17: when `Game::Play` returns, the deck after the round is a prefix of the deck
before the round: cards leave only from the end, the cards left keep their order, none
is added, and so the size of the deck does not grow. -/
theorem Play_deck_initial_segment (fuel : Nat) (g : Game) (input : List Char) (g1 : Game)
    (i : List Char) (ev : List Event) (h : g.Play fuel input = some (g1, i, ev)) :
    g1.m_Deck <+: g.m_Deck
    ∧ g1.m_Deck = g.m_Deck.take g1.m_Deck.length
    ∧ g1.m_Deck.length ≤ g.m_Deck.length := by
  have hpre := (Play_result fuel g input g1 i ev h).1
  exact ⟨hpre, List.prefix_iff_eq_take.1 hpre, hpre.length_le⟩

theorem Play_deck_initial_segment_witness :
    roundExample.Play 20 ['y', 'n', 'n']
        = some (⟨[up Rank.TWO Suit.CLUBS, up Rank.THREE Suit.CLUBS],
            ⟨"House", []⟩, [⟨"Ann", []⟩, ⟨"Bob", []⟩]⟩, [],
            [Event.Push "Ann", Event.Lose "Bob"])
    ∧ [up Rank.TWO Suit.CLUBS, up Rank.THREE Suit.CLUBS] <+: roundExample.m_Deck :=
  ⟨by decide,
    (Play_deck_initial_segment 20 roundExample ['y', 'n', 'n']
      ⟨[up Rank.TWO Suit.CLUBS, up Rank.THREE Suit.CLUBS],
        ⟨"House", []⟩, [⟨"Ann", []⟩, ⟨"Bob", []⟩]⟩ []
      [Event.Push "Ann", Event.Lose "Bob"] (by decide)).1⟩

/-! ## The house hand during the player turns -/

theorem Deal_hand (deck aHand : Hand) :
    (Deck.Deal deck aHand).2.1 = aHand ∨ ∃ c ∈ deck, (Deck.Deal deck aHand).2.1 = aHand ++ [c] := by
  rcases deck_nil_or_append deck with hnil | ⟨front, c, hsplit⟩
  · subst hnil
    exact Or.inl rfl
  · subst hsplit
    exact Or.inr ⟨c, by simp, by simp [Deck.Deal, Hand.Add]⟩

theorem dealRound_house_cards (g : Game) :
    ∀ c ∈ g.dealRound.1.m_House.m_Cards, c ∈ g.m_House.m_Cards ∨ c ∈ g.m_Deck := by
  intro c hc
  have hsub := (dealPlayers_initial_segment g.m_Players g.m_Deck).subset
  rcases Deal_hand (Game.dealPlayers g.m_Deck g.m_Players).1 g.m_House.m_Cards with
    hsame | ⟨x, hx, hadd⟩
  · have hc2 : c ∈ (Deck.Deal (Game.dealPlayers g.m_Deck g.m_Players).1 g.m_House.m_Cards).2.1 := hc
    rw [hsame] at hc2
    exact Or.inl hc2
  · have hc2 : c ∈ (Deck.Deal (Game.dealPlayers g.m_Deck g.m_Players).1 g.m_House.m_Cards).2.1 := hc
    rw [hadd] at hc2
    rcases List.mem_append.1 hc2 with h1 | h2
    · exact Or.inl h1
    · rw [List.mem_singleton.1 h2]
      exact Or.inr (hsub hx)

theorem INITIAL_DEAL_house_cards (g : Game) :
    ∀ c ∈ g.INITIAL_DEAL.1.m_House.m_Cards, c ∈ g.m_House.m_Cards ∨ c ∈ g.m_Deck := by
  intro c hc
  rcases dealRound_house_cards g.dealRound.1 c hc with h1 | h2
  · exact dealRound_house_cards g c h1
  · exact Or.inr ((dealRound_initial_segment g).subset h2)

theorem FlipFirstCard_twice (house : GenericPlayer) :
    (House.FlipFirstCard (House.FlipFirstCard house).1).1 = house := by
  obtain ⟨name, cards⟩ := house
  cases cards with
  | nil => rfl
  | cons first rest =>
    obtain ⟨r, s, f⟩ := first
    cases f <;> rfl

theorem Game_Game_start (names : List String) (shuffle : Hand → Hand)
    (hperm : ∀ d : Hand, (shuffle d).Perm d) :
    (∀ c ∈ (Game.Game names shuffle).m_Deck, c.m_IsFaceUp = true)
    ∧ (Game.Game names shuffle).m_House.m_Cards = []
    ∧ ∀ p ∈ (Game.Game names shuffle).m_Players, p.m_Cards = [] := by
  refine ⟨?_, rfl, ?_⟩
  · intro c hc
    have hmem : c ∈ Deck.Populate Deck.Deck := (hperm _).subset hc
    have hall : ∀ x ∈ Deck.Populate Deck.Deck, x.m_IsFaceUp = true := by decide
    exact hall c hmem
  · intro p hp
    simp only [Game.Game, List.mem_map] at hp
    obtain ⟨n, _, rfl⟩ := hp
    rfl

theorem Play_next_start (fuel : Nat) (g : Game) (input : List Char) (g1 : Game) (i : List Char)
    (ev : List Event) (h : g.Play fuel input = some (g1, i, ev))
    (hdeck : ∀ c ∈ g.m_Deck, c.m_IsFaceUp = true) :
    (∀ c ∈ g1.m_Deck, c.m_IsFaceUp = true)
    ∧ g1.m_House.m_Cards = []
    ∧ ∀ p ∈ g1.m_Players, p.m_Cards = [] := by
  obtain ⟨hpre, hhouse, hplayers⟩ := Play_result fuel g input g1 i ev h
  exact ⟨fun c hc => hdeck c (hpre.subset hc), hhouse, hplayers⟩

/-- C16: in a round (which starts with a deck of face-up cards and a house hand without
cards) where the house holds a card after the initial deal, the player turns leave the
house hand as it was after its first card was hidden, so that card is face down and the
house total is 0; after the reveal the house hand is the hand held at the end of the
initial deal, same cards in the same order, the first card face up. -/
theorem house_hand_in_player_turns (g : Game) (fuel : Nat) (input : List Char) (g3 : Game)
    (i3 : List Char) (e3 : List Event)
    (hdeck : ∀ c ∈ g.m_Deck, c.m_IsFaceUp = true) (hhouse : g.m_House.m_Cards = [])
    (hcard : g.INITIAL_DEAL.1.m_House.m_Cards ≠ [])
    (hturns : g.INITIAL_DEAL.1.REVEAL_PLAYERS.1.PLAYER_TURNS fuel input = some (g3, i3, e3)) :
    g3.m_House = g.INITIAL_DEAL.1.REVEAL_PLAYERS.1.m_House
    ∧ (∃ (first : Card) (rest : Hand),
        g.INITIAL_DEAL.1.m_House.m_Cards = first :: rest
        ∧ first.m_IsFaceUp = true
        ∧ g3.m_House.m_Cards = first.Flip :: rest
        ∧ first.Flip.m_IsFaceUp = false)
    ∧ g3.m_House.GetTotal = 0
    ∧ g3.DEALER_REVEAL.1.m_House = g.INITIAL_DEAL.1.m_House
    ∧ g3.DEALER_REVEAL.2 = [] := by
  have hframe := (PLAYER_TURNS_frame fuel _ input g3 i3 e3 hturns).1
  have hup : ∀ c ∈ g.INITIAL_DEAL.1.m_House.m_Cards, c.m_IsFaceUp = true := by
    intro c hc
    rcases INITIAL_DEAL_house_cards g c hc with h1 | h2
    · rw [hhouse] at h1
      simp at h1
    · exact hdeck c h2
  have htwice := FlipFirstCard_twice g.INITIAL_DEAL.1.m_House
  cases hcards : g.INITIAL_DEAL.1.m_House.m_Cards with
  | nil => exact absurd hcards hcard
  | cons first rest =>
    have hfirst : first.m_IsFaceUp = true := hup first (by rw [hcards]; simp)
    have hhidden : g.INITIAL_DEAL.1.REVEAL_PLAYERS.1.m_House.m_Cards = first.Flip :: rest := by
      simp only [Game.REVEAL_PLAYERS, House.FlipFirstCard, hcards]
    have hflip : first.Flip.m_IsFaceUp = false := by simp [Card.Flip, hfirst]
    have h3 : g3.m_House.m_Cards = first.Flip :: rest := by rw [hframe, hhidden]
    refine ⟨hframe, ⟨first, rest, rfl, hfirst, h3, hflip⟩, ?_, ?_, ?_⟩
    · have h0 : first.Flip.GetValue = 0 := (GetValue_eq_zero_iff _).2 hflip
      simp [GenericPlayer.GetTotal, h3, Hand.GetTotal, h0]
    · simp only [Game.DEALER_REVEAL, hframe]
      exact htwice
    · simp only [Game.DEALER_REVEAL, House.FlipFirstCard, h3]

theorem house_hand_in_player_turns_witness :
    (∀ c ∈ roundExample.m_Deck, c.m_IsFaceUp = true)
    ∧ roundExample.m_House.m_Cards = []
    ∧ roundExample.INITIAL_DEAL.1.m_House.m_Cards ≠ []
    ∧ roundExample.INITIAL_DEAL.1.REVEAL_PLAYERS.1.PLAYER_TURNS 20 ['y', 'n', 'n']
        = some (turnsExample, [], [])
    ∧ turnsExample.m_House.GetTotal = 0
    ∧ turnsExample.DEALER_REVEAL.1.m_House = roundExample.INITIAL_DEAL.1.m_House :=
  ⟨by decide, by decide, by decide, by decide,
    (house_hand_in_player_turns roundExample 20 ['y', 'n', 'n'] turnsExample [] []
      (by decide) (by decide) (by decide) (by decide)).2.2.1,
    (house_hand_in_player_turns roundExample 20 ['y', 'n', 'n'] turnsExample [] []
      (by decide) (by decide) (by decide) (by decide)).2.2.2.1⟩

/-! ## The initial deal -/

theorem Deal_append (front aHand : Hand) (c : Card) :
    Deck.Deal (front ++ [c]) aHand = (front, aHand ++ [c], []) := by
  simp [Deck.Deal, Hand.Add]

theorem dealPlayers_tops (players : List GenericPlayer) :
    ∀ (cs front : Hand), cs.length = players.length →
      Game.dealPlayers (front ++ cs.reverse) players
        = (front, List.zipWith GenericPlayer.Add players cs, []) := by
  induction players with
  | nil =>
    intro cs front hlen
    have hcs : cs = [] := List.length_eq_zero.1 hlen
    subst hcs
    simp [Game.dealPlayers]
  | cons p ps ih =>
    intro cs front hlen
    cases cs with
    | nil => simp at hlen
    | cons c cs1 =>
      have hlen1 : cs1.length = ps.length := by simpa using hlen
      have hdeck : front ++ (c :: cs1).reverse = (front ++ cs1.reverse) ++ [c] := by simp
      rw [hdeck, Game.dealPlayers]
      simp only [Deal_append, ih cs1 front hlen1]
      rfl

theorem dealRound_tops (front cs : Hand) (hc : Card) (house : GenericPlayer)
    (players : List GenericPlayer) (hlen : cs.length = players.length) :
    Game.dealRound ⟨front ++ (cs ++ [hc]).reverse, house, players⟩
      = (⟨front, house.Add hc, List.zipWith GenericPlayer.Add players cs⟩, []) := by
  have hdeck : front ++ (cs ++ [hc]).reverse = (front ++ [hc]) ++ cs.reverse := by simp
  simp only [Game.dealRound, hdeck, dealPlayers_tops players cs (front ++ [hc]) hlen, Deal_append]
  rfl

theorem INITIAL_DEAL_tops (front cs1 cs2 : Hand) (h1 h2 : Card) (house : GenericPlayer)
    (players : List GenericPlayer) (hlen1 : cs1.length = players.length)
    (hlen2 : cs2.length = players.length) :
    Game.INITIAL_DEAL ⟨front ++ (cs1 ++ h1 :: (cs2 ++ [h2])).reverse, house, players⟩
      = (⟨front, (house.Add h1).Add h2,
          List.zipWith GenericPlayer.Add (List.zipWith GenericPlayer.Add players cs1) cs2⟩,
        []) := by
  have hdeck : front ++ (cs1 ++ h1 :: (cs2 ++ [h2])).reverse
      = (front ++ (cs2 ++ [h2]).reverse) ++ (cs1 ++ [h1]).reverse := by simp
  have hlen3 : cs2.length = (List.zipWith GenericPlayer.Add players cs1).length := by
    simp [hlen1, hlen2]
  simp only [Game.INITIAL_DEAL, hdeck,
    dealRound_tops (front ++ (cs2 ++ [h2]).reverse) cs1 h1 house players hlen1,
    dealRound_tops front cs2 h2 (house.Add h1) _ hlen3]
  rfl

theorem split_at (l : Hand) (n : Nat) (hn : n < l.length) :
    ∃ (a : Hand) (x : Card) (b : Hand), l = a ++ x :: b ∧ a.length = n :=
  ⟨l.take n, l[n], l.drop (n + 1),
    by rw [← List.drop_eq_getElem_cons hn, List.take_append_drop],
    by simp [List.length_take]; omega⟩

theorem getElem?_lt (l : List GenericPlayer) (i : Nat) (p : GenericPlayer)
    (h : l[i]? = some p) : i < l.length := by
  obtain ⟨hlt, _⟩ := List.getElem?_eq_some.1 h
  exact hlt

/-- C11: with every player hand and the house hand without cards and a deck of at least
`2 (n + 1)` cards for `n` players, the initial deal prints nothing, takes exactly the top
`2 (n + 1)` cards off the deck, and leaves every hand with two cards: counting from the
top of the deck, player `i` holds cards number `i` and `n + 1 + i`, and the house holds
cards number `n` and `2 n + 1`. -/
theorem INITIAL_DEAL_alternate (g : Game) (hplayers : ∀ p ∈ g.m_Players, p.m_Cards = [])
    (hhouse : g.m_House.m_Cards = [])
    (hdeck : 2 * (g.m_Players.length + 1) ≤ g.m_Deck.length) :
    g.INITIAL_DEAL.2 = []
    ∧ g.INITIAL_DEAL.1.m_Deck = g.m_Deck.take (g.m_Deck.length - 2 * (g.m_Players.length + 1))
    ∧ g.INITIAL_DEAL.1.m_Deck.length + 2 * (g.m_Players.length + 1) = g.m_Deck.length
    ∧ g.INITIAL_DEAL.1.m_Players.length = g.m_Players.length
    ∧ (∀ (i : Nat) (p : GenericPlayer), g.m_Players[i]? = some p →
        ∃ a b : Card, g.m_Deck.reverse[i]? = some a
          ∧ g.m_Deck.reverse[g.m_Players.length + 1 + i]? = some b
          ∧ g.INITIAL_DEAL.1.m_Players[i]? = some ⟨p.m_Name, [a, b]⟩)
    ∧ ∃ a b : Card, g.m_Deck.reverse[g.m_Players.length]? = some a
        ∧ g.m_Deck.reverse[2 * g.m_Players.length + 1]? = some b
        ∧ g.INITIAL_DEAL.1.m_House = ⟨g.m_House.m_Name, [a, b]⟩ := by
  have htoplen : g.m_Deck.reverse.length = g.m_Deck.length := List.length_reverse _
  obtain ⟨cs1, h1, t1, htop, hl1⟩ := split_at g.m_Deck.reverse g.m_Players.length (by omega)
  have ht1len : g.m_Players.length < t1.length := by
    have := congrArg List.length htop
    simp only [List.length_append, List.length_cons] at this
    omega
  obtain ⟨cs2, h2, rest, ht1, hl2⟩ := split_at t1 g.m_Players.length ht1len
  subst ht1
  have hdeckeq : g.m_Deck = rest.reverse ++ (cs1 ++ h1 :: (cs2 ++ [h2])).reverse := by
    have := congrArg List.reverse htop
    rw [List.reverse_reverse] at this
    rw [this]
    simp
  have hres : g.INITIAL_DEAL
      = (⟨rest.reverse, (g.m_House.Add h1).Add h2,
          List.zipWith GenericPlayer.Add (List.zipWith GenericPlayer.Add g.m_Players cs1) cs2⟩,
        []) := by
    have := INITIAL_DEAL_tops rest.reverse cs1 cs2 h1 h2 g.m_House g.m_Players hl1 hl2
    rw [← hdeckeq] at this
    exact this
  have hcount : rest.reverse.length + 2 * (g.m_Players.length + 1) = g.m_Deck.length := by
    have := congrArg List.length hdeckeq
    simp only [List.length_append, List.length_reverse, List.length_cons, List.length_nil] at this
    simp only [List.length_reverse]
    omega
  rw [hres]
  refine ⟨rfl, ?_, hcount, ?_, ?_, ?_⟩
  · have hk : rest.reverse.length = g.m_Deck.length - 2 * (g.m_Players.length + 1) := by omega
    have htake : List.take (g.m_Deck.length - 2 * (g.m_Players.length + 1))
        (rest.reverse ++ (cs1 ++ h1 :: (cs2 ++ [h2])).reverse) = rest.reverse :=
      List.take_left' hk
    rw [← hdeckeq] at htake
    exact htake.symm
  · simp [List.length_zipWith, hl1, hl2]
  · intro i p hp
    have hi : i < g.m_Players.length := getElem?_lt _ i p hp
    have hi1 : i < cs1.length := by omega
    have hi2 : i < cs2.length := by omega
    have ha : cs1[i]? = some cs1[i] := List.getElem?_eq_getElem hi1
    have hb : cs2[i]? = some cs2[i] := List.getElem?_eq_getElem hi2
    have hpe : p.m_Cards = [] := hplayers p (List.getElem?_mem hp)
    refine ⟨cs1[i], cs2[i], ?_, ?_, ?_⟩
    · rw [htop, List.getElem?_append_left (by omega)]
      exact ha
    · rw [htop, List.getElem?_append_right (by omega)]
      have hidx : g.m_Players.length + 1 + i - cs1.length = i + 1 := by omega
      rw [hidx, List.getElem?_cons_succ, List.getElem?_append_left (by omega)]
      exact hb
    · simp only [List.getElem?_zipWith, hp, ha, hb]
      simp [GenericPlayer.Add, Hand.Add, hpe]
  · refine ⟨h1, h2, ?_, ?_, ?_⟩
    · rw [htop, List.getElem?_append_right (by omega)]
      simp [hl1]
    · rw [htop, List.getElem?_append_right (by omega)]
      have hidx : 2 * g.m_Players.length + 1 - cs1.length = (g.m_Players.length) + 1 := by omega
      rw [hidx, List.getElem?_cons_succ, List.getElem?_append_right (by omega)]
      simp [hl2]
    · simp [GenericPlayer.Add, Hand.Add, hhouse]

theorem INITIAL_DEAL_alternate_witness :
    (∀ p ∈ roundExample.m_Players, p.m_Cards = [])
    ∧ roundExample.m_House.m_Cards = []
    ∧ 2 * (roundExample.m_Players.length + 1) ≤ roundExample.m_Deck.length
    ∧ roundExample.m_Players[1]? = some ⟨"Bob", []⟩
    ∧ ∃ a b : Card, roundExample.m_Deck.reverse[1]? = some a
        ∧ roundExample.m_Deck.reverse[roundExample.m_Players.length + 1 + 1]? = some b
        ∧ roundExample.INITIAL_DEAL.1.m_Players[1]? = some ⟨"Bob", [a, b]⟩ :=
  ⟨by decide, by decide, by decide, by decide,
    (INITIAL_DEAL_alternate roundExample (by decide) (by decide) (by decide)).2.2.2.2.1 1
      ⟨"Bob", []⟩ (by decide)⟩

end Blackjack
